import Mathlib

/-!
Verification of the dispatch and accounting engine of the distributed task
runner backend (`src/backend/server.js`, first revision of the file).

Modelling conventions (shallow embedding):
* JavaScript numbers that hold money or fee percentages are modelled as exact
  rationals (`ℚ`); the spec's own numeric policy (§ "Numeric semantics") treats
  amounts as decimals, and all concrete inputs used in counterexamples are
  chosen so that the JavaScript double computation is exact, so the rational
  idealisation agrees with the source on them.
* JavaScript numbers used as indices, ranges and counters are modelled as
  integers (`Int`); fields the code guards with `Number.isFinite` are
  `Option Int` (`none` = absent / non-finite).
* JS `null`/`undefined` string fields are `Option String`.  Where the code
  relies on JS truthiness of strings the model assumes the relevant strings
  are non-empty (session ids, worker ids), which the doc comment of each
  definition notes.
* Random `nanoid()` identifiers are passed in as explicit `freshId`/`now`
  parameters; they never influence control flow.
* The in-place mutation of the lowdb `db.data` object is modelled by explicit
  state passing: each embedded operation returns the updated collections.
-/

namespace DTR

/-- Bridge between the executable `Rat.floor` and Mathlib's `Int.floor`. -/
theorem rat_floor_eq_intFloor (q : ℚ) : Rat.floor q = ⌊q⌋ := by
  rw [Rat.floor_def', Rat.floor_def]

/-- Models JavaScript `Number(x.toFixed(6))` on an exact rational: per the
ECMAScript `toFixed` algorithm the result is `n / 10^6` where `n` is the
integer minimising `|n / 10^6 - x|`, and when two such integers exist the
larger one is picked; that integer is `⌊x * 10^6 + 1/2⌋`. -/
def toFixed6 (q : ℚ) : ℚ := (Rat.floor (q * 1000000 + 1/2) : ℚ) / 1000000

/-- Models JavaScript `Math.round`: nearest integer, ties toward positive
infinity, i.e. `⌊x + 1/2⌋`. -/
def jsMathRound (q : ℚ) : ℤ := Rat.floor (q + 1/2)

/-- Models `normalizeCurrencyAmount` from `server.js`: `Number(value)` yields
`none` for a non-numeric input; a numeric input is rounded to two decimals via
`Math.round(numeric * 100) / 100` (the final `Number(rounded.toFixed(2))` is
the identity on a value that is already a multiple of `1/100`). -/
def normalizeCurrencyAmount (value : Option ℚ) : Option ℚ :=
  value.map (fun q => (jsMathRound (q * 100) : ℚ) / 100)

/-- Spec-side definition, following the words of the specification's numeric
policy: rounding to 6 decimal places using round-half-even (banker's
rounding).  `f = ⌊x·10^6⌋`; below the midpoint round down, above it round up,
and at the exact midpoint pick the even neighbour. -/
def roundHalfEven6 (q : ℚ) : ℚ :=
  ((if q * 1000000 - (Rat.floor (q * 1000000) : ℚ) < 1/2 then Rat.floor (q * 1000000)
    else if 1/2 < q * 1000000 - (Rat.floor (q * 1000000) : ℚ) then Rat.floor (q * 1000000) + 1
    else if Rat.floor (q * 1000000) % 2 = 0 then Rat.floor (q * 1000000)
    else Rat.floor (q * 1000000) + 1 : ℤ) : ℚ) / 1000000

/-- Spec-side definition of the amended rounding policy, written from its
words: the nearest multiple of `10⁻⁶`, with a tie at the exact midpoint
resolved to the larger of the two candidates. -/
def roundHalfUpSpec6 (q : ℚ) : ℚ :=
  ((if q * 1000000 - (Rat.floor (q * 1000000) : ℚ) < 1/2 then Rat.floor (q * 1000000)
    else Rat.floor (q * 1000000) + 1 : ℤ) : ℚ) / 1000000

/-- User record (`users` collection).  `roles` and the timestamps do not
influence any claim; timestamps are omitted.  Ids and session ids are assumed
non-empty (the code treats empty strings as missing). -/
structure User where
  id : String
  sessionId : String
  walletBalance : ℚ
  roles : List String
  deriving Repr, DecidableEq

/-- Wallet transaction record (`walletTransactions` collection), with its
`meta` object flattened into the three fields the code ever writes.  The
random `nanoid()` id and the `createdAt` timestamp are omitted: no claim
mentions them. -/
structure WalletTx where
  userId : String
  sessionId : String
  type : String
  amount : ℚ
  balanceAfter : ℚ
  metaTaskId : Option String
  metaChunkIndex : Option Int
  metaReason : Option String
  deriving Repr, DecidableEq

/-- The ledger-related slice of `db.data`: users, the append-only wallet
transaction list, and the platform ledger singleton's `totalEarnings`. -/
structure LedgerState where
  users : List User
  walletTransactions : List WalletTx
  platformTotalEarnings : ℚ
  deriving Repr, DecidableEq

/-- Models `findUserBySessionId`: `none`/empty session ids find nobody, else
the first user whose `sessionId` matches. -/
def findUserBySessionId (users : List User) (sessionId : Option String) : Option User :=
  match sessionId with
  | none => none
  | some sid => users.find? (fun u => u.sessionId = sid)

/-- Models `ensureWorkerUser` (find-or-create): when no user has the worker's
session id, a fresh user with zero balance and role `worker` is appended;
`freshId` stands for the generated `nanoid()`.  Assumes `workerId` is
non-empty (the code returns `null` on a falsy worker id; the `none` case is
handled by the caller in this model). -/
def ensureWorkerUser (users : List User) (workerId : String) (freshId : String) :
    List User × User :=
  match users.find? (fun u => u.sessionId = workerId) with
  | some u => (users, u)
  | none =>
      let u : User := { id := freshId, sessionId := workerId, walletBalance := 0, roles := ["worker"] }
      (users ++ [u], u)

/-- Models `adjustUserBalance`: the user object the JS code mutates in place is
identified here by its `id`; the balance is increased by `delta` and a single
transaction row holding the post-change balance is appended.  When no user
with that id exists nothing happens (the JS guard `if (!user) return null`).
Assumes ids are unique in the list.  `Number(delta) || 0` is the identity on
an exact rational delta. -/
def adjustUserBalance (s : LedgerState) (userId : String) (delta : ℚ) (ty : String)
    (metaTaskId : Option String) (metaChunkIndex : Option Int) (metaReason : Option String) :
    LedgerState :=
  match s.users.find? (fun u => u.id = userId) with
  | none => s
  | some u =>
      let newBal := u.walletBalance + delta
      { users := s.users.map (fun v => if v.id = userId then { v with walletBalance := newBal } else v)
        walletTransactions := s.walletTransactions ++
          [{ userId := userId, sessionId := u.sessionId, type := ty, amount := delta,
             balanceAfter := newBal, metaTaskId := metaTaskId,
             metaChunkIndex := metaChunkIndex, metaReason := metaReason }]
        platformTotalEarnings := s.platformTotalEarnings }

/-- Models `recordPlatformEarning`: accrues `amount` on the platform ledger and
appends a `platform-fee` transaction under the synthetic user id
`platform`. -/
def recordPlatformEarning (s : LedgerState) (amount : ℚ)
    (metaTaskId : Option String) (metaChunkIndex : Option Int) : LedgerState :=
  let newTotal := s.platformTotalEarnings + amount
  { s with
    platformTotalEarnings := newTotal
    walletTransactions := s.walletTransactions ++
      [{ userId := "platform", sessionId := "platform", type := "platform-fee",
         amount := amount, balanceAfter := newTotal, metaTaskId := metaTaskId,
         metaChunkIndex := metaChunkIndex, metaReason := none }] }

/-- Task record, restricted to the fields the payout, budget and planner code
reads.  Numeric fields the code re-checks with `Number.isFinite` are options
(`none` = absent or non-numeric). -/
structure Task where
  id : String
  creatorId : Option String
  creatorSessionId : Option String
  costPerChunk : Option ℚ
  creditCost : Option ℚ
  totalChunks : Option ℚ
  maxBillableChunks : Option ℚ
  budgetTotal : Option ℚ
  chunksPaid : Option ℚ
  budgetSpent : Option ℚ
  platformFeePercent : Option ℚ
  deriving Repr, DecidableEq

/-- Result of `resolveTaskBudget`. -/
structure ResolvedBudget where
  costPerChunk : ℚ
  maxBillableChunks : ℚ
  budgetTotal : ℚ
  chunksPaid : ℚ
  budgetSpent : ℚ
  deriving Repr, DecidableEq

/-- Models the JS idiom `Number(x) || 1`: `NaN` (here: `none`) and `0` fall
back to `1`, any other numeric value is kept. -/
def jsNumOrOne (v : Option ℚ) : ℚ :=
  match v with
  | some c => if c = 0 then 1 else c
  | none => 1

/-- Models `resolveTaskBudget` from `server.js`. -/
def resolveTaskBudget (t : Task) : ResolvedBudget :=
  let costPerChunk :=
    match t.costPerChunk with
    | some c => if 0 < c then c else jsNumOrOne t.creditCost
    | none => jsNumOrOne t.creditCost
  let maxBillableChunks := t.maxBillableChunks.getD (t.totalChunks.getD 1)
  let budgetTotal := t.budgetTotal.getD (costPerChunk * maxBillableChunks)
  let chunksPaid := t.chunksPaid.getD 0
  let budgetSpent := t.budgetSpent.getD (costPerChunk * chunksPaid)
  { costPerChunk := costPerChunk, maxBillableChunks := maxBillableChunks,
    budgetTotal := budgetTotal, chunksPaid := chunksPaid, budgetSpent := budgetSpent }

/-- Per-item record stored inside a bucket result's `itemResults` list. -/
structure ItemResult where
  globalIndex : Option Int
  localIndex : Option Int
  status : String
  inputPreview : String
  output : String
  error : Option String
  deriving Repr, DecidableEq

/-- Bucket result record (`chunkResults` collection).  The random id and the
`createdAt`/`updatedAt` timestamps are omitted (no claim mentions them);
`payoutAt` is kept because the payout writes it. -/
structure ChunkResult where
  taskId : String
  chunkIndex : Int
  status : String
  resultText : Option String
  rangeStart : Option Int
  rangeEnd : Option Int
  itemsCount : Option Int
  bytesUsed : Option Int
  output : Option String
  error : Option String
  itemResults : List ItemResult
  itemResultsTotal : Int
  itemResultsTruncated : Bool
  processedItems : Option Int
  payoutIssued : Bool
  payoutAt : Option String
  workerId : Option String
  deriving Repr, DecidableEq

/-- Models `issueChunkPayout` from `server.js`.  The module-level constants
`DISABLE_BUDGET_CHECKS` and `PLATFORM_FEE_PERCENT` are explicit parameters
(`disableBudgetChecks`, `defaultFeePercent`); `freshWorkerUserId` stands for
the `nanoid()` a worker account created on demand would get, and `now` for the
`payoutAt` timestamp.  Returns the updated ledger state, task and bucket
result together with the boolean the JS function returns. -/
def issueChunkPayout (disableBudgetChecks : Bool) (defaultFeePercent : ℚ)
    (s : LedgerState) (t : Task) (r : ChunkResult) (workerId : Option String)
    (freshWorkerUserId : String) (now : String) :
    LedgerState × Task × ChunkResult × Bool :=
  if r.payoutIssued then (s, t, r, false)
  else if r.status ≠ "completed" then (s, t, r, false)
  else
    let b := resolveTaskBudget t
    if ¬disableBudgetChecks ∧ b.maxBillableChunks ≤ b.chunksPaid then (s, t, r, false)
    else
      let creatorSessionId := t.creatorId.or t.creatorSessionId
      match findUserBySessionId s.users creatorSessionId with
      | none => (s, t, r, false)
      | some customer =>
          let usersAndWorker :=
            match workerId with
            | some wid =>
                let uw := ensureWorkerUser s.users wid freshWorkerUserId
                (uw.1, some uw.2)
            | none => (s.users, none)
          let s1 : LedgerState := { s with users := usersAndWorker.1 }
          let total := b.costPerChunk
          let feePercent := t.platformFeePercent.getD defaultFeePercent
          let platformShare := toFixed6 (total * feePercent / 100)
          let workerShare := toFixed6 (total - platformShare)
          let s2 := adjustUserBalance s1 customer.id (-total) "chunk-debit"
            (some t.id) (some r.chunkIndex) none
          let s3 :=
            match usersAndWorker.2 with
            | some w => adjustUserBalance s2 w.id workerShare "chunk-credit"
                (some t.id) (some r.chunkIndex) none
            | none => s2
          let s4 :=
            if platformShare ≠ 0 then
              recordPlatformEarning s3 platformShare (some t.id) (some r.chunkIndex)
            else s3
          let t2 : Task := { t with
            chunksPaid := some (t.chunksPaid.getD 0 + 1)
            budgetSpent := some (t.budgetSpent.getD 0 + total) }
          let r2 : ChunkResult := { r with
            payoutIssued := true
            payoutAt := some now
            workerId := workerId.or r.workerId }
          (s4, t2, r2, true)

/-- Evaluation rule for `toFixed6` at a concrete argument: it returns `n/10^6`
as soon as `n ≤ q·10^6 + 1/2 < n + 1`. -/
theorem toFixed6_eval (q : ℚ) (n : ℤ) (h1 : (n : ℚ) ≤ q * 1000000 + 1/2)
    (h2 : q * 1000000 + 1/2 < n + 1) : toFixed6 q = (n : ℚ) / 1000000 := by
  unfold toFixed6
  rw [rat_floor_eq_intFloor]
  rw [Int.floor_eq_iff.mpr ⟨h1, h2⟩]

/-- Evaluation rule for `jsMathRound` at a concrete argument. -/
theorem jsMathRound_eval (q : ℚ) (n : ℤ) (h1 : (n : ℚ) ≤ q + 1/2)
    (h2 : q + 1/2 < n + 1) : jsMathRound q = n := by
  unfold jsMathRound
  rw [rat_floor_eq_intFloor]
  exact Int.floor_eq_iff.mpr ⟨h1, h2⟩

example : toFixed6 (25/32 * 1 / 100) = 7813/1000000 := by
  rw [toFixed6_eval (25/32 * 1 / 100) 7813] <;> norm_num

example : normalizeCurrencyAmount (some (2000000 : ℚ)) = some 2000000 := by
  unfold normalizeCurrencyAmount
  rw [Option.map, jsMathRound_eval (2000000 * 100) 200000000] <;> norm_num

/-- The executable rounding used by the code agrees pointwise with the
spec-style case definition "nearest multiple of 10⁻⁶, tie to the larger". -/
theorem toFixed6_eq_roundHalfUpSpec6 (q : ℚ) : toFixed6 q = roundHalfUpSpec6 q := by
  unfold toFixed6 roundHalfUpSpec6
  simp only [rat_floor_eq_intFloor]
  congr 1
  set x := q * 1000000 with hx
  by_cases hlt : x - (⌊x⌋ : ℚ) < 1/2
  · rw [if_pos hlt]
    have h1 : ((⌊x⌋ : ℤ) : ℚ) ≤ x + 1/2 := by
      have := Int.floor_le x
      linarith
    have h2 : x + 1/2 < ((⌊x⌋ : ℤ) : ℚ) + 1 := by linarith
    have := Int.floor_eq_iff.mpr ⟨h1, h2⟩
    exact_mod_cast this
  · rw [if_neg hlt]
    push_neg at hlt
    have h1 : ((⌊x⌋ + 1 : ℤ) : ℚ) ≤ x + 1/2 := by push_cast; linarith
    have h2 : x + 1/2 < ((⌊x⌋ + 1 : ℤ) : ℚ) + 1 := by
      have := Int.lt_floor_add_one x
      push_cast
      linarith
    have := Int.floor_eq_iff.mpr ⟨h1, h2⟩
    exact_mod_cast this

/-- When `q` is already an integer multiple of `10⁻⁶`, `toFixed6` is the
identity. -/
theorem toFixed6_eq_self (q : ℚ) (h : (q * 1000000).den = 1) : toFixed6 q = q := by
  unfold toFixed6
  rw [rat_floor_eq_intFloor]
  have hq : ((q * 1000000).num : ℚ) = q * 1000000 := (Rat.den_eq_one_iff _).mp h
  have hhalf : ⌊(1/2 : ℚ)⌋ = 0 := by
    rw [Int.floor_eq_iff] <;> norm_num
  have hfloor : ⌊q * 1000000 + 1/2⌋ = (q * 1000000).num := by
    conv_lhs => rw [← hq]
    rw [add_comm, Int.floor_add_int, hhalf, zero_add]
  rw [hfloor, hq]
  field_simp

/-- The value `toFixed6` returns is itself a multiple of `10⁻⁶`. -/
theorem toFixed6_den (q : ℚ) : (toFixed6 q * 1000000).den = 1 := by
  unfold toFixed6
  have : (Rat.floor (q * 1000000 + 1/2) : ℚ) / 1000000 * 1000000 =
      (Rat.floor (q * 1000000 + 1/2) : ℚ) := by field_simp
  rw [this]
  exact Rat.den_intCast _

/-- Projection of a wallet transaction to the fields the invariant claims talk
about: type, signed amount and the payout meta. -/
def txKey (tx : WalletTx) : String × ℚ × Option String × Option Int :=
  (tx.type, tx.amount, tx.metaTaskId, tx.metaChunkIndex)

theorem findUserBySessionId_mem {us : List User} {sid : Option String} {u : User}
    (h : findUserBySessionId us sid = some u) : u ∈ us := by
  unfold findUserBySessionId at h
  match sid with
  | none => simp at h
  | some s => exact List.mem_of_find?_eq_some h

theorem ensureWorkerUser_mem {us : List User} {u : User} (wid fid : String)
    (h : u ∈ us) : u ∈ (ensureWorkerUser us wid fid).1 := by
  unfold ensureWorkerUser
  cases hf : us.find? (fun v => v.sessionId = wid) with
  | some w => simpa using h
  | none => simpa using Or.inl h

theorem ensureWorkerUser_self_mem (us : List User) (wid fid : String) :
    (ensureWorkerUser us wid fid).2 ∈ (ensureWorkerUser us wid fid).1 := by
  unfold ensureWorkerUser
  cases hf : us.find? (fun v => v.sessionId = wid) with
  | some w => simpa using List.mem_of_find?_eq_some hf
  | none => simp

/-- When some user with the given id is present, `adjustUserBalance` appends
exactly one transaction whose key fields are the arguments, and keeps every
user id present. -/
theorem adjustUserBalance_txKey {s : LedgerState} {uid : String}
    (δ : ℚ) (ty : String) (mt : Option String) (mc : Option Int) (mr : Option String)
    (h : ∃ u ∈ s.users, u.id = uid) :
    (adjustUserBalance s uid δ ty mt mc mr).walletTransactions.map txKey =
      s.walletTransactions.map txKey ++ [(ty, δ, mt, mc)] := by
  unfold adjustUserBalance
  cases hf : s.users.find? (fun v => v.id = uid) with
  | some u => simp [txKey]
  | none =>
      exfalso
      obtain ⟨u, hu, hid⟩ := h
      have : (s.users.find? (fun v => v.id = uid)).isSome :=
        List.find?_isSome.mpr ⟨u, hu, by simp [hid]⟩
      rw [hf] at this
      simp at this

theorem adjustUserBalance_id_mem {s : LedgerState} {uid2 : String}
    (uid : String) (δ : ℚ) (ty : String) (mt : Option String) (mc : Option Int)
    (mr : Option String) (h : ∃ u ∈ s.users, u.id = uid2) :
    ∃ u ∈ (adjustUserBalance s uid δ ty mt mc mr).users, u.id = uid2 := by
  unfold adjustUserBalance
  obtain ⟨u, hu, hid⟩ := h
  cases hf : s.users.find? (fun v => v.id = uid) with
  | some w =>
      refine ⟨(fun v => if v.id = uid then { v with walletBalance := w.walletBalance + δ } else v) u,
        List.mem_map_of_mem _ hu, ?_⟩
      by_cases hc : u.id = uid
      · simp only [if_pos hc]
        exact hid
      · simp only [if_neg hc]
        exact hid
  | none => exact ⟨u, hu, hid⟩

/-- Characterisation of a successful payout with a resolved worker id: it
returns `true` and appends a customer `chunk-debit`, a worker `chunk-credit`,
and — when the platform share is nonzero — a `platform-fee` transaction, all
carrying the task id and bucket index in their meta fields. -/
theorem issueChunkPayout_success_txKey (dbc : Bool) (dfp : ℚ) (s : LedgerState)
    (t : Task) (r : ChunkResult) (wid fid now : String) (cust : User)
    (hp : r.payoutIssued = false)
    (hs : r.status = "completed")
    (hg : ¬(¬dbc = true ∧ (resolveTaskBudget t).maxBillableChunks ≤ (resolveTaskBudget t).chunksPaid))
    (hc : findUserBySessionId s.users (t.creatorId.or t.creatorSessionId) = some cust) :
    (issueChunkPayout dbc dfp s t r (some wid) fid now).2.2.2 = true ∧
    (issueChunkPayout dbc dfp s t r (some wid) fid now).1.walletTransactions.map txKey =
      s.walletTransactions.map txKey ++
        ([("chunk-debit", -(resolveTaskBudget t).costPerChunk, some t.id, some r.chunkIndex),
          ("chunk-credit",
            toFixed6 ((resolveTaskBudget t).costPerChunk -
              toFixed6 ((resolveTaskBudget t).costPerChunk * t.platformFeePercent.getD dfp / 100)),
            some t.id, some r.chunkIndex)] ++
          (if toFixed6 ((resolveTaskBudget t).costPerChunk * t.platformFeePercent.getD dfp / 100) = 0
           then []
           else [("platform-fee",
             toFixed6 ((resolveTaskBudget t).costPerChunk * t.platformFeePercent.getD dfp / 100),
             some t.id, some r.chunkIndex)])) := by
  have hcm : cust ∈ s.users := findUserBySessionId_mem hc
  unfold issueChunkPayout
  simp only [hp, hs, Bool.false_eq_true, if_false, ne_eq, not_true_eq_false, if_neg hg, hc]
  set uw := ensureWorkerUser s.users wid fid with huw
  set c := (resolveTaskBudget t).costPerChunk with hcost
  set ps := toFixed6 (c * t.platformFeePercent.getD dfp / 100) with hps
  set ws := toFixed6 (c - ps) with hws
  set s1 : LedgerState := { s with users := uw.1 } with hs1
  set s2 := adjustUserBalance s1 cust.id (-c) "chunk-debit" (some t.id) (some r.chunkIndex) none
    with hs2
  set s3 := adjustUserBalance s2 uw.2.id ws "chunk-credit" (some t.id) (some r.chunkIndex) none
    with hs3
  have h2 : s2.walletTransactions.map txKey =
      s.walletTransactions.map txKey ++ [("chunk-debit", -c, some t.id, some r.chunkIndex)] := by
    rw [hs2]
    exact adjustUserBalance_txKey (-c) "chunk-debit" (some t.id) (some r.chunkIndex) none
      ⟨cust, ensureWorkerUser_mem wid fid hcm, rfl⟩
  have h3 : s3.walletTransactions.map txKey =
      s2.walletTransactions.map txKey ++ [("chunk-credit", ws, some t.id, some r.chunkIndex)] := by
    rw [hs3]
    refine adjustUserBalance_txKey ws "chunk-credit" (some t.id) (some r.chunkIndex) none ?_
    refine adjustUserBalance_id_mem cust.id (-c) "chunk-debit" (some t.id) (some r.chunkIndex) none ?_
    exact ⟨uw.2, ensureWorkerUser_self_mem s.users wid fid, rfl⟩
  by_cases hz : ps = 0
  · refine ⟨trivial, ?_⟩
    rw [if_pos hz]
    have : ¬ps ≠ 0 := by simpa using hz
    rw [if_neg this]
    rw [h3, h2]
    simp
  · refine ⟨trivial, ?_⟩
    rw [if_neg hz]
    have hne : ps ≠ 0 := hz
    rw [if_pos hne]
    show (recordPlatformEarning s3 ps (some t.id) (some r.chunkIndex)).walletTransactions.map txKey = _
    unfold recordPlatformEarning
    simp only [List.map_append, h3, h2]
    simp [txKey]

theorem den_one_sub {a b : ℚ} (ha : a.den = 1) (hb : b.den = 1) : (a - b).den = 1 := by
  have ha2 := (Rat.den_eq_one_iff a).mp ha
  have hb2 := (Rat.den_eq_one_iff b).mp hb
  have : a - b = ((a.num - b.num : ℤ) : ℚ) := by push_cast [ha2, hb2]; ring
  rw [this]
  exact Rat.den_intCast _

/-- When the chunk cost is an integer multiple of `10⁻⁶`, the three signed
payout amounts cancel. -/
theorem payout_amounts_sum_zero (c p : ℚ) (h : (c * 1000000).den = 1) :
    -c + toFixed6 (c - toFixed6 (c * p / 100)) + toFixed6 (c * p / 100) = 0 := by
  set ps := toFixed6 (c * p / 100) with hps
  have hd : ((c - ps) * 1000000).den = 1 := by
    have hps6 : (ps * 1000000).den = 1 := toFixed6_den _
    have hexp : (c - ps) * 1000000 = c * 1000000 - ps * 1000000 := by ring
    rw [hexp]
    exact den_one_sub h hps6
  rw [toFixed6_eq_self _ hd]
  ring

/-- Concrete customer account used by the witness and counterexample states. -/
def custUser : User :=
  { id := "cid", sessionId := "cust", walletBalance := 100, roles := ["customer"] }

/-- Concrete ledger holding just the customer. -/
def baseLedger : LedgerState :=
  { users := [custUser], walletTransactions := [], platformTotalEarnings := 0 }

/-- Concrete task: cost 1 per chunk, 10 percent platform fee. -/
def baseTask : Task :=
  { id := "t1", creatorId := some "cust", creatorSessionId := none,
    costPerChunk := some 1, creditCost := none, totalChunks := none,
    maxBillableChunks := some 10, budgetTotal := none, chunksPaid := some 0,
    budgetSpent := some 0, platformFeePercent := some 10 }

/-- Concrete completed, not-yet-paid bucket result for `baseTask`. -/
def doneResult : ChunkResult :=
  { taskId := "t1", chunkIndex := 0, status := "completed", resultText := none,
    rangeStart := some 0, rangeEnd := some 2, itemsCount := some 2,
    bytesUsed := none, output := none, error := none, itemResults := [],
    itemResultsTotal := 0, itemResultsTruncated := false, processedItems := some 2,
    payoutIssued := false, payoutAt := none, workerId := some "w1" }

/-- C2: when `payoutIssued` is already true, or the bucket result's status is
anything other than `completed`, `issueChunkPayout` returns `false` and leaves
the ledger state, the task and the bucket result exactly as they were: no
wallet adjustment, no platform accrual, no transaction. -/
theorem issueChunkPayout_skips_issued_or_non_completed
    (dbc : Bool) (dfp : ℚ) (s : LedgerState) (t : Task) (r : ChunkResult)
    (w : Option String) (fid now : String)
    (h : r.payoutIssued = true ∨ r.status ≠ "completed") :
    issueChunkPayout dbc dfp s t r w fid now = (s, t, r, false) := by
  unfold issueChunkPayout
  rcases h with h | h
  · rw [if_pos h]
  · by_cases hp : r.payoutIssued = true
    · rw [if_pos hp]
    · rw [if_neg hp, if_pos h]

/-- Witness for C2: a concrete already-paid bucket and a concrete failed
bucket are both left untouched. -/
theorem issueChunkPayout_skips_issued_or_non_completed_witness :
    issueChunkPayout true 10 baseLedger baseTask
        { doneResult with payoutIssued := true } (some "w1") "fid" "now" =
      (baseLedger, baseTask, { doneResult with payoutIssued := true }, false) ∧
    issueChunkPayout true 10 baseLedger baseTask
        { doneResult with status := "failed" } (some "w1") "fid" "now" =
      (baseLedger, baseTask, { doneResult with status := "failed" }, false) :=
  ⟨issueChunkPayout_skips_issued_or_non_completed true 10 baseLedger baseTask
      { doneResult with payoutIssued := true } (some "w1") "fid" "now" (Or.inl rfl),
   issueChunkPayout_skips_issued_or_non_completed true 10 baseLedger baseTask
      { doneResult with status := "failed" } (some "w1") "fid" "now"
      (Or.inr (by simp [doneResult]))⟩

/-- C1 (amended): a successful payout whose worker id is resolved and whose
platform share is nonzero appends exactly three transactions carrying
`meta.taskId = task.id` and `meta.chunkIndex = bucket index` — one
`chunk-debit` of `-cost`, one `chunk-credit` of the worker share, one
`platform-fee` of the platform share — and when the cost is an integer
multiple of `10⁻⁶` their signed sum is zero. -/
theorem payout_three_transactions_balanced
    (dbc : Bool) (dfp : ℚ) (s : LedgerState) (t : Task) (r : ChunkResult)
    (wid fid now : String) (cust : User)
    (hp : r.payoutIssued = false)
    (hs : r.status = "completed")
    (hg : ¬(¬dbc = true ∧ (resolveTaskBudget t).maxBillableChunks ≤ (resolveTaskBudget t).chunksPaid))
    (hc : findUserBySessionId s.users (t.creatorId.or t.creatorSessionId) = some cust)
    (hz : toFixed6 ((resolveTaskBudget t).costPerChunk * t.platformFeePercent.getD dfp / 100) ≠ 0)
    (hden : ((resolveTaskBudget t).costPerChunk * 1000000).den = 1) :
    (issueChunkPayout dbc dfp s t r (some wid) fid now).2.2.2 = true ∧
    (issueChunkPayout dbc dfp s t r (some wid) fid now).1.walletTransactions.map txKey =
      s.walletTransactions.map txKey ++
        [("chunk-debit", -(resolveTaskBudget t).costPerChunk, some t.id, some r.chunkIndex),
         ("chunk-credit",
           toFixed6 ((resolveTaskBudget t).costPerChunk -
             toFixed6 ((resolveTaskBudget t).costPerChunk * t.platformFeePercent.getD dfp / 100)),
           some t.id, some r.chunkIndex),
         ("platform-fee",
           toFixed6 ((resolveTaskBudget t).costPerChunk * t.platformFeePercent.getD dfp / 100),
           some t.id, some r.chunkIndex)] ∧
    -(resolveTaskBudget t).costPerChunk +
      toFixed6 ((resolveTaskBudget t).costPerChunk -
        toFixed6 ((resolveTaskBudget t).costPerChunk * t.platformFeePercent.getD dfp / 100)) +
      toFixed6 ((resolveTaskBudget t).costPerChunk * t.platformFeePercent.getD dfp / 100) = 0 := by
  obtain ⟨h1, h2⟩ := issueChunkPayout_success_txKey dbc dfp s t r wid fid now cust hp hs hg hc
  rw [if_neg hz] at h2
  refine ⟨h1, ?_, payout_amounts_sum_zero _ _ hden⟩
  simpa using h2

/-- Witness for C1 at the concrete fixtures: cost 1, fee percent 10. -/
theorem payout_three_transactions_balanced_witness :
    (issueChunkPayout true 10 baseLedger baseTask doneResult (some "w1") "fid" "now").2.2.2 = true ∧
    (issueChunkPayout true 10 baseLedger baseTask doneResult (some "w1") "fid" "now").1.walletTransactions.map txKey =
      baseLedger.walletTransactions.map txKey ++
        [("chunk-debit", -(resolveTaskBudget baseTask).costPerChunk, some baseTask.id, some doneResult.chunkIndex),
         ("chunk-credit",
           toFixed6 ((resolveTaskBudget baseTask).costPerChunk -
             toFixed6 ((resolveTaskBudget baseTask).costPerChunk * baseTask.platformFeePercent.getD 10 / 100)),
           some baseTask.id, some doneResult.chunkIndex),
         ("platform-fee",
           toFixed6 ((resolveTaskBudget baseTask).costPerChunk * baseTask.platformFeePercent.getD 10 / 100),
           some baseTask.id, some doneResult.chunkIndex)] ∧
    -(resolveTaskBudget baseTask).costPerChunk +
      toFixed6 ((resolveTaskBudget baseTask).costPerChunk -
        toFixed6 ((resolveTaskBudget baseTask).costPerChunk * baseTask.platformFeePercent.getD 10 / 100)) +
      toFixed6 ((resolveTaskBudget baseTask).costPerChunk * baseTask.platformFeePercent.getD 10 / 100) = 0 :=
  payout_three_transactions_balanced true 10 baseLedger baseTask doneResult "w1" "fid" "now" custUser
    rfl rfl (by simp) rfl
    (by
      have e1 : (resolveTaskBudget baseTask).costPerChunk = 1 := by
        norm_num [resolveTaskBudget, baseTask]
      have e2 : baseTask.platformFeePercent.getD 10 = 10 := rfl
      rw [e1, e2]
      have h := toFixed6_eval ((1:ℚ) * 10 / 100) 100000 (by norm_num) (by norm_num)
      rw [h]
      norm_num)
    (by
      have e1 : (resolveTaskBudget baseTask).costPerChunk = 1 := by
        norm_num [resolveTaskBudget, baseTask]
      rw [e1]
      norm_num)

/-- Counterexample to C1 as stated: `issueChunkPayout` on a completed bucket
whose terminal update resolved no worker id (possible in `record-chunk` when
the request body has no `workerId`, no assignment matched and the stored
result has none) sets `payoutIssued = true` yet appends only two transactions
with the bucket's meta — a `chunk-debit` and a `platform-fee`, no
`chunk-credit` — and their signed sum is `-9/10 ≠ 0`. -/
theorem payout_three_transactions_cex :
    (issueChunkPayout true 10 baseLedger baseTask doneResult none "fid" "now").2.2.1.payoutIssued = true ∧
    ((issueChunkPayout true 10 baseLedger baseTask doneResult none "fid" "now").1.walletTransactions.filter
        (fun tx => tx.metaTaskId = some "t1" ∧ tx.metaChunkIndex = some 0)).map txKey =
      [("chunk-debit", (-1 : ℚ), some "t1", some 0),
       ("platform-fee", (1/10 : ℚ), some "t1", some 0)] ∧
    (-1 : ℚ) + 1/10 ≠ 0 := by
  have e1 : (resolveTaskBudget baseTask).costPerChunk = 1 := by
    norm_num [resolveTaskBudget, baseTask]
  have hps : toFixed6 ((10:ℚ) / 100) = 1/10 := by
    have h := toFixed6_eval ((10:ℚ) / 100) 100000 (by norm_num) (by norm_num)
    rw [h]
    norm_num
  have hne : (toFixed6 ((10:ℚ) / 100) = 0) = False := by
    rw [hps]
    norm_num
  refine ⟨?_, ?_, by norm_num⟩
  · simp [issueChunkPayout, e1, hps, hne, baseLedger, baseTask, doneResult, custUser,
      findUserBySessionId, adjustUserBalance, recordPlatformEarning, resolveTaskBudget,
      List.find?, Option.or]
  · simp [issueChunkPayout, e1, hps, hne, baseLedger, baseTask, doneResult, custUser,
      findUserBySessionId, adjustUserBalance, recordPlatformEarning, resolveTaskBudget,
      List.find?, Option.or, List.filter, txKey]

/-- Concrete task whose cost and fee percent put `cost·fee/100` exactly on a
6-decimal rounding midpoint: `25/32 · 1 / 100 = 0.0078125`.  All values are
exactly representable IEEE doubles, so the JS computation hits the same
midpoint. -/
def tieTask : Task :=
  { baseTask with costPerChunk := some (25/32), platformFeePercent := some 1 }

/-- C3 (amended): the platform share of a payout equals `cost·fee/100` rounded
to 6 decimal places with ties resolved to the larger value (the ECMAScript
`toFixed` rule), and the worker share equals `cost - platformShare` rounded
the same way (which is `cost - platformShare` itself whenever the cost has at
most 6 decimals). -/
theorem payout_shares_round_half_up
    (dbc : Bool) (dfp : ℚ) (s : LedgerState) (t : Task) (r : ChunkResult)
    (wid fid now : String) (cust : User)
    (hp : r.payoutIssued = false)
    (hs : r.status = "completed")
    (hg : ¬(¬dbc = true ∧ (resolveTaskBudget t).maxBillableChunks ≤ (resolveTaskBudget t).chunksPaid))
    (hc : findUserBySessionId s.users (t.creatorId.or t.creatorSessionId) = some cust)
    (hz : roundHalfUpSpec6 ((resolveTaskBudget t).costPerChunk * t.platformFeePercent.getD dfp / 100) ≠ 0) :
    (issueChunkPayout dbc dfp s t r (some wid) fid now).1.walletTransactions.map txKey =
      s.walletTransactions.map txKey ++
        [("chunk-debit", -(resolveTaskBudget t).costPerChunk, some t.id, some r.chunkIndex),
         ("chunk-credit",
           roundHalfUpSpec6 ((resolveTaskBudget t).costPerChunk -
             roundHalfUpSpec6 ((resolveTaskBudget t).costPerChunk * t.platformFeePercent.getD dfp / 100)),
           some t.id, some r.chunkIndex),
         ("platform-fee",
           roundHalfUpSpec6 ((resolveTaskBudget t).costPerChunk * t.platformFeePercent.getD dfp / 100),
           some t.id, some r.chunkIndex)] := by
  obtain ⟨h1, h2⟩ := issueChunkPayout_success_txKey dbc dfp s t r wid fid now cust hp hs hg hc
  rw [← toFixed6_eq_roundHalfUpSpec6] at hz
  rw [if_neg hz] at h2
  simp only [← toFixed6_eq_roundHalfUpSpec6]
  simpa using h2

/-- Witness for C3 at the concrete fixtures: cost 1, fee percent 10. -/
theorem payout_shares_round_half_up_witness :
    (issueChunkPayout true 10 baseLedger baseTask doneResult (some "w1") "fid" "now").1.walletTransactions.map txKey =
      baseLedger.walletTransactions.map txKey ++
        [("chunk-debit", -(resolveTaskBudget baseTask).costPerChunk, some baseTask.id, some doneResult.chunkIndex),
         ("chunk-credit",
           roundHalfUpSpec6 ((resolveTaskBudget baseTask).costPerChunk -
             roundHalfUpSpec6 ((resolveTaskBudget baseTask).costPerChunk * baseTask.platformFeePercent.getD 10 / 100)),
           some baseTask.id, some doneResult.chunkIndex),
         ("platform-fee",
           roundHalfUpSpec6 ((resolveTaskBudget baseTask).costPerChunk * baseTask.platformFeePercent.getD 10 / 100),
           some baseTask.id, some doneResult.chunkIndex)] :=
  payout_shares_round_half_up true 10 baseLedger baseTask doneResult "w1" "fid" "now" custUser
    rfl rfl (by simp) rfl
    (by
      have e1 : (resolveTaskBudget baseTask).costPerChunk = 1 := by
        norm_num [resolveTaskBudget, baseTask]
      have e2 : baseTask.platformFeePercent.getD 10 = 10 := rfl
      rw [e1, e2, ← toFixed6_eq_roundHalfUpSpec6]
      have h := toFixed6_eval ((1:ℚ) * 10 / 100) 100000 (by norm_num) (by norm_num)
      rw [h]
      norm_num)

/-- Counterexample to C3 as stated: at cost `25/32` and fee percent `1` the
product `cost·fee/100 = 0.0078125` sits exactly on the 6-decimal midpoint; the
code's `toFixed(6)` stores a platform share of `0.007813` (ties to the larger
value) while round-half-even would give `0.007812`. -/
theorem payout_round_half_even_cex :
    (issueChunkPayout true 10 baseLedger tieTask doneResult (some "w1") "fid" "now").1.walletTransactions.map txKey =
      [("chunk-debit", -(25/32 : ℚ), some "t1", some 0),
       ("chunk-credit", (773437/1000000 : ℚ), some "t1", some 0),
       ("platform-fee", (7813/1000000 : ℚ), some "t1", some 0)] ∧
    roundHalfEven6 ((25:ℚ)/32 * 1 / 100) = 7812/1000000 ∧
    ((7813:ℚ)/1000000) ≠ 7812/1000000 := by
  refine ⟨?_, ?_, by norm_num⟩
  · obtain ⟨h1, h2⟩ := issueChunkPayout_success_txKey true 10 baseLedger tieTask doneResult
      "w1" "fid" "now" custUser rfl rfl (by simp) rfl
    have ec : (resolveTaskBudget tieTask).costPerChunk = 25/32 := by
      norm_num [resolveTaskBudget, tieTask, baseTask]
    have ep : tieTask.platformFeePercent.getD 10 = 1 := rfl
    rw [ec, ep] at h2
    have hps : toFixed6 ((25:ℚ)/32 * 1 / 100) = 7813/1000000 := by
      have h := toFixed6_eval ((25:ℚ)/32 * 1 / 100) 7813 (by norm_num) (by norm_num)
      rw [h]
      norm_num
    have hws : toFixed6 ((25:ℚ)/32 - 7813/1000000) = 773437/1000000 := by
      have h := toFixed6_eval ((25:ℚ)/32 - 7813/1000000) 773437 (by norm_num) (by norm_num)
      rw [h]
      norm_num
    rw [hps] at h2
    rw [if_neg (by norm_num : ¬((7813:ℚ)/1000000 = 0))] at h2
    rw [hws] at h2
    simpa [baseLedger, tieTask, baseTask, doneResult] using h2
  · have hfl : Rat.floor ((25:ℚ)/32 * 1 / 100 * 1000000) = 7812 := by
      rw [rat_floor_eq_intFloor]
      apply Int.floor_eq_iff.mpr
      constructor <;> norm_num
    unfold roundHalfEven6
    rw [hfl]
    norm_num

/-- Models the `meta.reason` defaulting of the wallet endpoints: a non-blank
string reason is trimmed and kept, anything else falls back to the given
default. -/
def walletReason (reason : Option String) (dflt : String) : String :=
  match reason with
  | some r => if r.trim.length > 0 then r.trim else dflt
  | none => dflt

/-- Models `POST /api/wallet/deposit` (the part after body parsing): returns
the HTTP status code the handler answers with and the resulting ledger state.
`amount = none` stands for a non-numeric request amount (for which
`normalizeCurrencyAmount` returns `null` and `Number.isFinite(null)` is
false).  The auto-created session user of the middleware is modelled by
looking the session up in the ledger. -/
def walletDeposit (sandboxEnabled : Bool) (s : LedgerState) (sessionId : Option String)
    (amount : Option ℚ) (reason : Option String) : Nat × LedgerState :=
  match normalizeCurrencyAmount amount with
  | none => (400, s)
  | some normalized =>
      if normalized ≤ 0 then (400, s)
      else if 1000000 < normalized then (400, s)
      else if ¬sandboxEnabled then (403, s)
      else
        match findUserBySessionId s.users sessionId with
        | none => (500, s)
        | some u =>
            (200, adjustUserBalance s u.id normalized "wallet-deposit" none none
              (some (walletReason reason "manual-deposit")))

/-- Models `POST /api/wallet/withdraw`: as `walletDeposit`, plus the
insufficient-balance guard `normalized > currentBalance → 400`. -/
def walletWithdraw (sandboxEnabled : Bool) (s : LedgerState) (sessionId : Option String)
    (amount : Option ℚ) (reason : Option String) : Nat × LedgerState :=
  match normalizeCurrencyAmount amount with
  | none => (400, s)
  | some normalized =>
      if normalized ≤ 0 then (400, s)
      else if 1000000 < normalized then (400, s)
      else if ¬sandboxEnabled then (403, s)
      else
        match findUserBySessionId s.users sessionId with
        | none => (500, s)
        | some u =>
            if u.walletBalance < normalized then (400, s)
            else
              (200, adjustUserBalance s u.id (-normalized) "wallet-withdrawal" none none
                (some (walletReason reason "manual-withdrawal")))

/-- C9: both wallet endpoints answer 400 and leave the ledger untouched (no
balance change, no transaction) when the normalised amount exceeds 1,000,000,
when it is non-positive, and when the amount is non-numeric. -/
theorem wallet_limit_rejected (sandbox : Bool) (s : LedgerState) (sid : Option String)
    (amount : Option ℚ) (reason : Option String) :
    (amount = none →
      walletDeposit sandbox s sid amount reason = (400, s) ∧
      walletWithdraw sandbox s sid amount reason = (400, s)) ∧
    (∀ n, normalizeCurrencyAmount amount = some n → n ≤ 0 →
      walletDeposit sandbox s sid amount reason = (400, s) ∧
      walletWithdraw sandbox s sid amount reason = (400, s)) ∧
    (∀ n, normalizeCurrencyAmount amount = some n → 1000000 < n →
      walletDeposit sandbox s sid amount reason = (400, s) ∧
      walletWithdraw sandbox s sid amount reason = (400, s)) := by
  refine ⟨?_, ?_, ?_⟩
  · intro h
    subst h
    constructor <;> rfl
  · intro n hn hle
    unfold walletDeposit walletWithdraw
    rw [hn]
    simp [if_pos hle]
  · intro n hn hgt
    have hpos : ¬n ≤ 0 := by linarith
    unfold walletDeposit walletWithdraw
    rw [hn]
    simp [if_neg hpos, if_pos hgt]

/-- Witness for C9: a 2,000,000 deposit and withdrawal are both rejected with
status 400 on the concrete ledger. -/
theorem wallet_limit_rejected_witness :
    walletDeposit true baseLedger (some "cust") (some 2000000) none = (400, baseLedger) ∧
    walletWithdraw true baseLedger (some "cust") (some 2000000) none = (400, baseLedger) := by
  have hn : normalizeCurrencyAmount (some (2000000:ℚ)) = some 2000000 := by
    unfold normalizeCurrencyAmount
    rw [Option.map, jsMathRound_eval (2000000 * 100) 200000000] <;> norm_num
  exact (wallet_limit_rejected true baseLedger (some "cust") (some 2000000) none).2.2
    2000000 hn (by norm_num)

/-- Models the scan in `ensureBucketConfig` that computes `largestItemBytes`:
the maximum serialised byte length over the task's items (items whose
serialisation throws are skipped by the code and are simply absent from
`sizes`). -/
def largestItemBytes (sizes : List Nat) : Nat := sizes.foldl (fun a b => max a b) 0

/-- Models the common normalisation loop of `ensureBucketConfig` and of
`ensureItemFits` inside `calculateBucket`: while `maxBuckets > 1` and the
size bound `L` exceeds `maxBucketBytes`, halve `maxBuckets` (flooring, with a
floor of 1) and double `maxBucketBytes`. -/
def bucketNormLoop (L maxBuckets maxBucketBytes : Nat) : Nat × Nat :=
  if h : 1 < maxBuckets ∧ maxBucketBytes < L then
    bucketNormLoop L (max 1 (maxBuckets / 2)) (2 * maxBucketBytes)
  else (maxBuckets, maxBucketBytes)
termination_by maxBuckets
decreasing_by
  simp_wf
  omega

/-- Models the normalisation step of `ensureBucketConfig` (and the identical
`ensureItemFits`): run the halving/doubling loop against the largest item
size, then, if the largest item still does not fit, raise `maxBucketBytes` to
`max(maxBucketBytes, 2·L)`. -/
def ensureBucketConfigNorm (sizes : List Nat) (maxBuckets maxBucketBytes : Nat) : Nat × Nat :=
  let L := largestItemBytes sizes
  let mbB := bucketNormLoop L maxBuckets maxBucketBytes
  if mbB.2 < L then (mbB.1, max mbB.2 (2 * L)) else mbB

theorem bucketNormLoop_fst_le (L : Nat) : ∀ mb B, (bucketNormLoop L mb B).1 ≤ mb := by
  intro mb
  induction mb using Nat.strong_induction_on with
  | _ mb ih =>
      intro B
      rw [bucketNormLoop]
      by_cases h : 1 < mb ∧ B < L
      · rw [dif_pos h]
        have hlt : max 1 (mb / 2) < mb := by omega
        exact le_trans (ih _ hlt _) (le_of_lt hlt)
      · rw [dif_neg h]

theorem bucketNormLoop_snd_ge (L : Nat) : ∀ mb B, B ≤ (bucketNormLoop L mb B).2 := by
  intro mb
  induction mb using Nat.strong_induction_on with
  | _ mb ih =>
      intro B
      rw [bucketNormLoop]
      by_cases h : 1 < mb ∧ B < L
      · rw [dif_pos h]
        have hlt : max 1 (mb / 2) < mb := by omega
        have := ih _ hlt (2 * B)
        omega
      · rw [dif_neg h]

/-- C7: bucket-config normalisation never raises `maxBuckets`, never lowers
`maxBucketBytes`, leaves every single item fitting (`L ≤ maxBucketBytes`
afterwards), and when the loop alone did not make the largest item fit it
sets `maxBucketBytes` to exactly `2·L`. -/
theorem ensureBucketConfigNorm_spec (sizes : List Nat) (mb B : Nat) :
    (ensureBucketConfigNorm sizes mb B).1 ≤ mb ∧
    B ≤ (ensureBucketConfigNorm sizes mb B).2 ∧
    largestItemBytes sizes ≤ (ensureBucketConfigNorm sizes mb B).2 ∧
    ((bucketNormLoop (largestItemBytes sizes) mb B).2 < largestItemBytes sizes →
      (ensureBucketConfigNorm sizes mb B).2 = 2 * largestItemBytes sizes) := by
  unfold ensureBucketConfigNorm
  have h1 := bucketNormLoop_fst_le (largestItemBytes sizes) mb B
  have h2 := bucketNormLoop_snd_ge (largestItemBytes sizes) mb B
  by_cases h : (bucketNormLoop (largestItemBytes sizes) mb B).2 < largestItemBytes sizes
  · rw [if_pos h]
    refine ⟨h1, by simp; omega, by simp; omega, fun _ => by simp; omega⟩
  · rw [if_neg h]
    exact ⟨h1, h2, by omega, fun hcontra => absurd hcontra h⟩

/-- Witness for C7: one item of size 10 with `maxBuckets = 1`,
`maxBucketBytes = 4`; the loop cannot halve further, so the final bump fires
and the capacity becomes `2·10 = 20`. -/
theorem ensureBucketConfigNorm_spec_witness :
    (ensureBucketConfigNorm [10] 1 4).1 ≤ 1 ∧
    4 ≤ (ensureBucketConfigNorm [10] 1 4).2 ∧
    largestItemBytes [10] ≤ (ensureBucketConfigNorm [10] 1 4).2 ∧
    (ensureBucketConfigNorm [10] 1 4).2 = 2 * largestItemBytes [10] := by
  have h := ensureBucketConfigNorm_spec [10] 1 4
  refine ⟨h.1, h.2.1, h.2.2.1, h.2.2.2 ?_⟩
  rw [bucketNormLoop]
  norm_num [largestItemBytes]

/-- Bound `MAX_ITEM_RESULTS_STORED` from `server.js`. -/
def MAX_ITEM_RESULTS_STORED : Nat := 200

/-- Bound `ITEM_PREVIEW_LIMIT` from `server.js`. -/
def ITEM_PREVIEW_LIMIT : Nat := 240

/-- Models `truncateText` on a string argument (a non-string argument yields
`""` in the code; callers below always pass strings). -/
def truncateText (value : String) (limit : Nat) : String :=
  if value.length ≤ limit then value
  else value.take limit ++ "... (+" ++ toString (value.length - limit) ++ " chars)"

/-- Raw per-item payload as posted by a worker.  String-typed JSON values are
carried in `some`; a non-string JSON value is modelled by its
`JSON.stringify` serialisation, and `none` stands for absent/null (for which
`safeStringify` yields the string `null`).  `inputValue` is folded into
`input` (the code treats them identically via `input ?? inputValue ?? null`).
Numeric indices are `none` when absent or non-finite. -/
structure RawItem where
  globalIndex : Option Int
  localIndex : Option Int
  status : Option String
  inputPreview : Option String
  input : Option String
  output : Option String
  error : Option String
  deriving Repr, DecidableEq

/-- Models `safeStringify(x ?? null)` under the conventions of `RawItem`. -/
def safeStringify (v : Option String) : String := v.getD "null"

/-- Models JS string truthiness (`s || fallback` takes the fallback exactly
when the string is absent or empty). -/
def strTruthy : Option String → Bool
  | some s => s ≠ ""
  | none => false

/-- Models the per-item mapping inside `sanitizeItemResults` at position
`idx` of the limited list. -/
def sanitizeOne (idx : Nat) (r : RawItem) : ItemResult :=
  { globalIndex := r.globalIndex
    localIndex := some (r.localIndex.getD (idx : Int))
    status :=
      if r.status = some "failed" then "failed"
      else if r.status = some "skipped" then "skipped"
      else "completed"
    inputPreview :=
      truncateText
        (match r.inputPreview with
         | some s => if s.trim.length > 0 then s else safeStringify r.input
         | none => safeStringify r.input)
        ITEM_PREVIEW_LIMIT
    output := truncateText (r.output.getD "null") ITEM_PREVIEW_LIMIT
    error :=
      match r.error with
      | some e => if e = "" then none else some (truncateText e ITEM_PREVIEW_LIMIT)
      | none => none }

/-- Index-threading recursion behind `limited.map((item, idx) => ...)`. -/
def sanitizeItemsGo (idx : Nat) : List RawItem → List ItemResult
  | [] => []
  | r :: rest => sanitizeOne idx r :: sanitizeItemsGo (idx + 1) rest

/-- Return shape of `sanitizeItemResults`. -/
structure SanitizedItems where
  items : List ItemResult
  total : Nat
  truncated : Bool
  deriving Repr, DecidableEq

/-- Models `sanitizeItemResults` from `server.js`: keep the first 200 raw
items, sanitise each, report the raw total and whether anything was cut. -/
def sanitizeItemResults (raw : List RawItem) : SanitizedItems :=
  if raw.length = 0 then { items := [], total := 0, truncated := false }
  else
    let items := sanitizeItemsGo 0 (raw.take MAX_ITEM_RESULTS_STORED)
    { items := items, total := raw.length, truncated := decide (items.length < raw.length) }

/-- Fallbacks handed to `sanitizeSingleItem`. -/
structure ItemFallbacks where
  globalIndex : Option Int
  localIndex : Option Int
  status : Option String
  deriving Repr, DecidableEq

/-- Models `sanitizeSingleItem`: merge the raw item with the fallbacks (JS
`||` for the status, `Number.isFinite` checks for the indices, `??` chains
for the preview), then run the single-element list through
`sanitizeItemResults`. -/
def sanitizeSingleItem (raw : Option RawItem) (fb : ItemFallbacks) : Option ItemResult :=
  match raw with
  | none => none
  | some r =>
      let merged : RawItem :=
        { globalIndex := if r.globalIndex.isSome then r.globalIndex else fb.globalIndex
          localIndex := if r.localIndex.isSome then r.localIndex else fb.localIndex
          status :=
            if strTruthy r.status then r.status
            else if strTruthy fb.status then fb.status
            else some "completed"
          inputPreview := r.inputPreview.or r.input
          input := none
          output := r.output
          error := r.error }
      (sanitizeItemResults [merged]).items.head?

/-- Models the `sanitizeSingleItem` invocation of `record-progress`, whose
status fallback is `rawItem?.status || "completed"`. -/
def progressSanitizeItem (r : RawItem) (fallbackLocal fallbackGlobal : Option Int) :
    Option ItemResult :=
  sanitizeSingleItem (some r)
    { globalIndex := if r.globalIndex.isSome then r.globalIndex else fallbackGlobal
      localIndex := if r.localIndex.isSome then r.localIndex else fallbackLocal
      status := if strTruthy r.status then r.status else some "completed" }

/-- Spec-side status coercion, following the claim's words: `completed`
unless the submitted status is exactly the string `failed` or exactly the
string `skipped`. -/
def claimItemStatus (s : Option String) : String :=
  if s = some "failed" then "failed"
  else if s = some "skipped" then "skipped"
  else "completed"

theorem sanitizeItemsGo_getElem (k : Nat) (l : List RawItem) (i : Nat) (h : i < l.length) :
    (sanitizeItemsGo k l)[i]? = some (sanitizeOne (k + i) (l.get ⟨i, h⟩)) := by
  induction l generalizing k i with
  | nil => simp at h
  | cons a as ih =>
      cases i with
      | zero => simp [sanitizeItemsGo]
      | succ j =>
          have hj : j < as.length := by simpa using h
          have := ih (k + 1) j hj
          simpa [sanitizeItemsGo, Nat.add_assoc, Nat.add_comm 1 j] using this

/-- C10: every stored item status — in a terminal bucket result batch
(`sanitizeItemResults`) and in a progress batch (`sanitizeSingleItem` with
the `record-progress` fallbacks) — is `failed` or `skipped` only when the
submitted status is exactly that string, and `completed` otherwise, in
particular when the status is missing or unrecognised. -/
theorem item_status_coerced_to_completed :
    (∀ (l : List RawItem) (i : Nat) (h1 : i < l.length) (h2 : i < MAX_ITEM_RESULTS_STORED),
      ∃ stored, (sanitizeItemResults l).items[i]? = some stored ∧
        stored.status = claimItemStatus (l.get ⟨i, h1⟩).status) ∧
    (∀ (r : RawItem) (fl fg : Option Int),
      ∃ stored, progressSanitizeItem r fl fg = some stored ∧
        stored.status = claimItemStatus r.status) := by
  constructor
  · intro l i h1 h2
    have hlen : 0 < l.length := Nat.lt_of_le_of_lt (Nat.zero_le i) h1
    have htake : i < (l.take MAX_ITEM_RESULTS_STORED).length := by
      simp [List.length_take]
      omega
    have hget := sanitizeItemsGo_getElem 0 (l.take MAX_ITEM_RESULTS_STORED) i htake
    refine ⟨sanitizeOne (0 + i) ((l.take MAX_ITEM_RESULTS_STORED).get ⟨i, htake⟩), ?_, ?_⟩
    · unfold sanitizeItemResults
      rw [if_neg (by omega)]
      exact hget
    · have : (l.take MAX_ITEM_RESULTS_STORED).get ⟨i, htake⟩ = l.get ⟨i, h1⟩ := by
        simp [List.get_take]
      rw [this]
      rfl
  · intro r fl fg
    unfold progressSanitizeItem sanitizeSingleItem
    have htake : ∀ m : RawItem, [m].take MAX_ITEM_RESULTS_STORED = [m] := fun m =>
      List.take_of_length_le (by simp [MAX_ITEM_RESULTS_STORED])
    simp only [sanitizeItemResults, List.length_cons, List.length_nil, Nat.zero_add, htake,
      sanitizeItemsGo]
    rw [if_neg (by norm_num)]
    refine ⟨_, rfl, ?_⟩
    show (sanitizeOne 0 _).status = _
    unfold sanitizeOne claimItemStatus strTruthy
    cases hs : r.status with
    | none => simp
    | some st =>
        by_cases he : st = ""
        · subst he
          simp
        · by_cases hf : st = "failed"
          · simp [he, hf]
          · by_cases hk : st = "skipped"
            · simp [he, hf, hk]
            · simp [he, hf, hk]

/-- Concrete raw item with an explicit `failed` status. -/
def rawFailed : RawItem :=
  { globalIndex := none, localIndex := some 0, status := some "failed",
    inputPreview := none, input := none, output := none, error := none }

/-- Concrete raw item with an unrecognised status string. -/
def rawWeird : RawItem :=
  { globalIndex := none, localIndex := some 1, status := some "weird",
    inputPreview := none, input := none, output := none, error := none }

/-- Witness for C10: an unrecognised status in a terminal batch is stored as
`completed`; a `failed` status in a progress batch is stored as `failed`. -/
theorem item_status_coerced_to_completed_witness :
    (∃ stored, (sanitizeItemResults [rawWeird]).items[0]? = some stored ∧
        stored.status = claimItemStatus rawWeird.status) ∧
    (∃ stored, progressSanitizeItem rawFailed none none = some stored ∧
        stored.status = claimItemStatus rawFailed.status) :=
  ⟨item_status_coerced_to_completed.1 [rawWeird] 0 (by simp)
      (by norm_num [MAX_ITEM_RESULTS_STORED]),
   item_status_coerced_to_completed.2 rawFailed none none⟩

/-- Bucket lease record (`chunkAssignments` collection).  Timestamps that the
code parses with `Date.parse` are modelled as epoch milliseconds (`none` =
absent; `Date.parse` of an absent value is not taken, the code substitutes
`0`). -/
structure Assignment where
  taskId : String
  chunkIndex : Option Int
  workerId : Option String
  assignedAt : Option Int
  expiresAt : Option Int
  rangeStart : Option Int
  rangeEnd : Option Int
  itemsCount : Option Int
  processedCount : Option Int
  progressRangeEnd : Option Int
  bytesUsed : Option Int
  lastBatchOffset : Option Int
  lastBatchSize : Option Int
  deriving Repr, DecidableEq

/-- Models `normalizeRange(entry, fallbackIndex)`: a well-ordered explicit
range wins; otherwise an entry with a usable fallback index covers
`[fallbackIndex, fallbackIndex + max(1, itemsCount))`. -/
def normalizeRange (rangeStart rangeEnd itemsCount fallbackIndex : Option Int) :
    Option (Int × Int) :=
  match rangeStart, rangeEnd with
  | some s, some e =>
      if s < e then some (s, e)
      else
        match fallbackIndex with
        | some fi => some (fi, fi + max 1 (itemsCount.getD 1))
        | none => none
  | _, _ =>
      match fallbackIndex with
      | some fi => some (fi, fi + max 1 (itemsCount.getD 1))
      | none => none

/-- Range of a lease as `record-chunk` and `next-chunk` compute it:
`normalizeRange(entry, entry.chunkIndex ?? null)`. -/
def assignmentRange (a : Assignment) : Option (Int × Int) :=
  normalizeRange a.rangeStart a.rangeEnd a.itemsCount a.chunkIndex

/-- Range of a stored bucket result as the code computes it:
`normalizeRange(r, Number.isFinite(r.chunkIndex) ? r.chunkIndex : null)`. -/
def resultRange (r : ChunkResult) : Option (Int × Int) :=
  normalizeRange r.rangeStart r.rangeEnd r.itemsCount (some r.chunkIndex)

/-- Deletion condition of the `record-chunk` assignment sweep: an entry of the
same task goes when its `chunkIndex` equals the reported one, or — when the
request carries a finite `rangeStart` and `rangeEnd` — when its normalised
range equals the reported range exactly. -/
def shouldReleaseAssignment (taskId : String) (chunkIndex : Int) (rS rE : Option Int)
    (entry : Assignment) : Bool :=
  if entry.taskId ≠ taskId then false
  else if entry.chunkIndex = some chunkIndex then true
  else
    match rS, rE with
    | some s, some e => assignmentRange entry = some (s, e)
    | _, _ => false

/-- Models the backward splice loop at the top of `record-chunk`; since each
entry's fate is independent of the others the loop removes exactly the
entries `shouldReleaseAssignment` selects. -/
def releaseChunkAssignments (taskId : String) (chunkIndex : Int) (rS rE : Option Int) :
    List Assignment → List Assignment
  | [] => []
  | entry :: rest =>
      if shouldReleaseAssignment taskId chunkIndex rS rE entry then
        releaseChunkAssignments taskId chunkIndex rS rE rest
      else entry :: releaseChunkAssignments taskId chunkIndex rS rE rest

/-- C8 (amended): the `record-chunk` sweep keeps exactly the leases of other
tasks and the leases of the same task that neither carry the reported bucket
index nor have a normalised range exactly equal to the reported one: equality
of ranges, not overlap, drives the second deletion rule. -/
theorem releaseChunkAssignments_mem (tid : String) (ci : Int) (rS rE : Option Int)
    (l : List Assignment) (entry : Assignment) :
    entry ∈ releaseChunkAssignments tid ci rS rE l ↔
      entry ∈ l ∧
        ¬(entry.taskId = tid ∧
          (entry.chunkIndex = some ci ∨
            (∃ s e, rS = some s ∧ rE = some e ∧ assignmentRange entry = some (s, e)))) := by
  have hiff : ∀ a : Assignment, shouldReleaseAssignment tid ci rS rE a = true ↔
      (a.taskId = tid ∧
        (a.chunkIndex = some ci ∨
          (∃ s e, rS = some s ∧ rE = some e ∧ assignmentRange a = some (s, e)))) := by
    intro a
    unfold shouldReleaseAssignment
    by_cases ht : a.taskId = tid
    · rw [if_neg (by simpa using ht)]
      by_cases hidx : a.chunkIndex = some ci
      · simp [hidx, ht]
      · rw [if_neg hidx]
        cases rS with
        | none => simp [ht, hidx]
        | some s =>
            cases rE with
            | none => simp [ht, hidx]
            | some e => simp [ht, hidx]
    · rw [if_pos (by simpa using ht)]
      simp [ht]
  induction l with
  | nil => simp [releaseChunkAssignments]
  | cons a rest ih =>
      unfold releaseChunkAssignments
      by_cases hrel : shouldReleaseAssignment tid ci rS rE a = true
      · rw [if_pos hrel]
        constructor
        · intro hm
          obtain ⟨hm2, hn⟩ := ih.mp hm
          exact ⟨List.mem_cons_of_mem a hm2, hn⟩
        · rintro ⟨hm, hn⟩
          rcases List.mem_cons.mp hm with rfl | hm2
          · exact absurd ((hiff entry).mp hrel) hn
          · exact ih.mpr ⟨hm2, hn⟩
      · rw [if_neg hrel]
        constructor
        · intro hm
          rcases List.mem_cons.mp hm with rfl | hm2
          · refine ⟨List.mem_cons_self _ _, ?_⟩
            intro hcontra
            exact hrel ((hiff entry).mpr hcontra)
          · obtain ⟨hm3, hn⟩ := ih.mp hm2
            exact ⟨List.mem_cons_of_mem a hm3, hn⟩
        · rintro ⟨hm, hn⟩
          rcases List.mem_cons.mp hm with rfl | hm2
          · exact List.mem_cons_self _ _
          · exact List.mem_cons_of_mem a (ih.mpr ⟨hm2, hn⟩)

/-- Concrete lease of task `t1`, bucket 1, over the range `[0, 3)`. -/
def leaseA : Assignment :=
  { taskId := "t1", chunkIndex := some 1, workerId := some "w2",
    assignedAt := some 100, expiresAt := some 99999,
    rangeStart := some 0, rangeEnd := some 3, itemsCount := some 3,
    processedCount := some 0, progressRangeEnd := some 0, bytesUsed := some 10,
    lastBatchOffset := some 0, lastBatchSize := some 0 }

/-- Witness for C8 on the kept side and the deleted side: a lease with the
exact reported range is removed; a lease of another task survives. -/
theorem releaseChunkAssignments_mem_witness :
    (leaseA ∈ releaseChunkAssignments "t1" 0 (some 0) (some 3) [leaseA] ↔
      leaseA ∈ [leaseA] ∧
        ¬(leaseA.taskId = "t1" ∧
          (leaseA.chunkIndex = some 0 ∨
            (∃ s e, (some 0 : Option Int) = some s ∧ (some 3 : Option Int) = some e ∧
              assignmentRange leaseA = some (s, e))))) ∧
    releaseChunkAssignments "t1" 0 (some 0) (some 3) [leaseA] = [] :=
  ⟨releaseChunkAssignments_mem "t1" 0 (some 0) (some 3) [leaseA] leaseA, by decide⟩

/-- Counterexample to C8 as stated: recording a terminal result for bucket 0
over `[0, 4)` leaves the bucket-1 lease over `[0, 3)` in place even though the
two ranges overlap — only an exactly equal range is deleted. -/
theorem releaseChunkAssignments_overlap_cex :
    releaseChunkAssignments "t1" 0 (some 0) (some 4) [leaseA] = [leaseA] ∧
    assignmentRange leaseA = some (0, 3) ∧
    (0 : Int) < min 3 4 - max 0 0 := by
  refine ⟨by decide, by decide, by decide⟩

/-- JavaScript `Number.MAX_SAFE_INTEGER`, the sort key the code substitutes
for a missing `localIndex`. -/
def NUMBER_MAX_SAFE_INTEGER : Int := 9007199254740991

/-- Sort key of the `itemResults` comparator. -/
def itemSortKey (i : ItemResult) : Int := i.localIndex.getD NUMBER_MAX_SAFE_INTEGER

/-- Stable insertion used to model the (stable) JS array sort by
`localIndex`. -/
def insertSorted (x : ItemResult) : List ItemResult → List ItemResult
  | [] => [x]
  | y :: ys => if itemSortKey x ≤ itemSortKey y then x :: y :: ys else y :: insertSorted x ys

/-- Stable sort of `itemResults` by `localIndex` (missing indices last), as
`itemResults.sort((a, b) => aIndex - bIndex)` produces. -/
def sortByLocalIndex : List ItemResult → List ItemResult
  | [] => []
  | x :: xs => insertSorted x (sortByLocalIndex xs)

/-- Label prefix used by `buildResultTextFromItems`. -/
def itemLabel (item : ItemResult) : String :=
  match item.globalIndex with
  | some g => "#" ++ toString g
  | none => "item " ++ (match item.localIndex with | some li => toString li | none => "null")

/-- Models `buildResultTextFromItems` from `server.js`. -/
def buildResultTextFromItems (items : List ItemResult) (status : String) : String :=
  if items.isEmpty then "[input]\nnone\n[output]\nstatus: " ++ status
  else
    let limited := items.take 20
    let inputLines := limited.map (fun item => (itemLabel item ++ ": " ++ item.inputPreview).trim)
    let outputLines := limited.map (fun item =>
      let base :=
        if item.status = "failed" then
          if item.error.getD "" ≠ "" then item.error.getD ""
          else if item.output ≠ "" then item.output
          else "failed"
        else if item.output ≠ "" then item.output else "completed"
      (itemLabel item ++ ": " ++ base).trim)
    let extra :=
      if 20 < items.length then ["...(and " ++ toString (items.length - 20) ++ " more)"] else []
    "[input]\n" ++ String.intercalate "\n" (inputLines ++ extra) ++
      "\n[output]\n" ++ String.intercalate "\n" (outputLines ++ extra)

/-- Request body of `POST /api/worker/record-chunk` after the endpoint's
field guard (`taskId`, numeric `chunkIndex` and `status` present).  `output`
and `error` are doubly optional: the outer `none` is an absent field, the
inner `none` an explicit JSON `null` (the code distinguishes them with
`output !== undefined` and `error === null`); a non-string JSON value is
carried as its serialisation. -/
structure RecordChunkReq where
  taskId : String
  chunkIndex : Int
  status : String
  resultText : Option String
  rangeStart : Option Int
  rangeEnd : Option Int
  itemsCount : Option Int
  bytesUsed : Option Int
  output : Option (Option String)
  error : Option (Option String)
  itemResults : List RawItem
  workerId : Option String
  deriving Repr, DecidableEq

/-- Models the `resolvedItemsCount` chain of `record-chunk`: the request's
`itemsCount`, else `rangeEnd - rangeStart`, else the nonzero sanitised item
count, else null. -/
def resolvedItemsCount (req : RecordChunkReq) : Option Int :=
  match req.itemsCount with
  | some c => some c
  | none =>
      match req.rangeStart, req.rangeEnd with
      | some s, some e => some (e - s)
      | _, _ =>
          if (sanitizeItemResults req.itemResults).items.length ≠ 0 then
            some ((sanitizeItemResults req.itemResults).items.length : Int)
          else none

/-- Models `safeResultText`: a non-blank request `resultText` wins, otherwise
the text is rebuilt from the sanitised items. -/
def safeResultTextOf (req : RecordChunkReq) : String :=
  match req.resultText with
  | some s =>
      if s.trim.length > 0 then s
      else buildResultTextFromItems (sanitizeItemResults req.itemResults).items req.status
  | none => buildResultTextFromItems (sanitizeItemResults req.itemResults).items req.status

/-- Models `safeOutput = truncateText(rawOutput || "")` where `rawOutput` is
the string output, or the serialisation of a non-string, or `""` for an
absent/null output (`safeStringify(output ?? "") = ""`). -/
def safeOutputOf (output : Option (Option String)) : String :=
  truncateText (match output with | some (some s) => s | _ => "") ITEM_PREVIEW_LIMIT

/-- Models `safeError`: a string (or serialisable truthy) error is kept,
absent and null both give null. -/
def safeErrorOf (error : Option (Option String)) : Option String :=
  match error with
  | some (some s) => some s
  | _ => none

/-- Field mutation `record-chunk` applies to an existing result row. -/
def applyTerminalUpdate (req : RecordChunkReq) (resolvedWorkerId : Option String)
    (r : ChunkResult) : ChunkResult :=
  let sp := sanitizeItemResults req.itemResults
  let ric := resolvedItemsCount req
  let sRT := safeResultTextOf req
  let sOut := safeOutputOf req.output
  let sErr := safeErrorOf req.error
  { r with
    status := req.status
    resultText := if sRT ≠ "" then some sRT else r.resultText
    rangeStart := req.rangeStart.or r.rangeStart
    rangeEnd := req.rangeEnd.or r.rangeEnd
    itemsCount := ric.or r.itemsCount
    processedItems :=
      match ric with
      | some c => some c
      | none => some (sp.items.length : Int)
    bytesUsed := req.bytesUsed.or r.bytesUsed
    output :=
      if req.output.isSome then some sOut
      else if sOut ≠ "" ∧ some sOut ≠ r.output then some sOut
      else r.output
    error := if sErr.isSome ∨ req.error = some none then sErr else r.error
    itemResults := sp.items
    itemResultsTotal := (sp.total : Int)
    itemResultsTruncated := sp.truncated
    workerId := resolvedWorkerId.or r.workerId }

/-- Fresh result row `record-chunk` pushes when no row exists for the
bucket. -/
def newChunkResult (req : RecordChunkReq) (resolvedWorkerId : Option String) : ChunkResult :=
  let sp := sanitizeItemResults req.itemResults
  let ric := resolvedItemsCount req
  let sRT := safeResultTextOf req
  let sOut := safeOutputOf req.output
  { taskId := req.taskId, chunkIndex := req.chunkIndex, status := req.status,
    resultText := if sRT ≠ "" then some sRT else none,
    rangeStart := req.rangeStart, rangeEnd := req.rangeEnd, itemsCount := ric,
    bytesUsed := req.bytesUsed,
    output := if sOut ≠ "" then some sOut else none,
    error := safeErrorOf req.error,
    itemResults := sp.items, itemResultsTotal := (sp.total : Int),
    itemResultsTruncated := sp.truncated, processedItems := ric,
    payoutIssued := false, payoutAt := none, workerId := resolvedWorkerId }

/-- Models the JS pattern find-then-mutate-in-place: only the first row with
the given key is replaced. -/
def updateFirstResult (tid : String) (ci : Int) (f : ChunkResult → ChunkResult) :
    List ChunkResult → List ChunkResult
  | [] => []
  | r :: rest =>
      if r.taskId = tid ∧ r.chunkIndex = ci then f r :: rest
      else r :: updateFirstResult tid ci f rest

/-- Overlap test of the `record-chunk` result dedup loop
(`overlap = max(0, min(ends) - max(starts)); overlap > 0`). -/
def resultOverlapsB (range : Option (Int × Int)) (r : ChunkResult) : Bool :=
  match range, resultRange r with
  | some rg, some rr => decide (0 < min rg.2 rr.2 - max rg.1 rr.1)
  | _, _ => false

/-- The overlap-dedup pass of `record-chunk`: drop every other result of the
same task whose normalised range overlaps the reported one. -/
def dedupResults (req : RecordChunkReq) (results : List ChunkResult) : List ChunkResult :=
  results.filter (fun r =>
    !(decide (r.taskId = req.taskId) && !decide (r.chunkIndex = req.chunkIndex) &&
      resultOverlapsB (normalizeRange req.rangeStart req.rangeEnd req.itemsCount
        (some req.chunkIndex)) r))

/-- The `existing` lookup of `record-chunk` (after the dedup pass, as in the
source). -/
def existingResult (req : RecordChunkReq) (results : List ChunkResult) : Option ChunkResult :=
  (dedupResults req results).find?
    (fun r => decide (r.taskId = req.taskId ∧ r.chunkIndex = req.chunkIndex))

/-- The worker-id resolution chain of `record-chunk`:
`req.body?.workerId || matchedAssignment?.workerId || existing?.workerId || null`. -/
def resolvedWorkerIdOf (req : RecordChunkReq) (assignments : List Assignment)
    (results : List ChunkResult) : Option String :=
  req.workerId.or
    (((assignments.find? (fun e =>
        decide (e.taskId = req.taskId ∧ e.chunkIndex = some req.chunkIndex))).bind
      (fun a => a.workerId)).or ((existingResult req results).bind (fun r => r.workerId)))

/-- Models the `record-chunk` handler's state transformation (after body
validation): release matching/equal-range leases, dedup overlapping other
results, then overwrite or insert the bucket's result row.  Returns the new
assignment list, the new result list and the resolved worker id (which the
handler then feeds to `issueChunkPayout`). -/
def recordChunk (req : RecordChunkReq) (assignments : List Assignment)
    (results : List ChunkResult) : List Assignment × List ChunkResult × Option String :=
  let assignments2 := releaseChunkAssignments req.taskId req.chunkIndex
    req.rangeStart req.rangeEnd assignments
  let results2 :=
    match existingResult req results with
    | some _ => updateFirstResult req.taskId req.chunkIndex
        (applyTerminalUpdate req (resolvedWorkerIdOf req assignments results))
        (dedupResults req results)
    | none => dedupResults req results ++
        [newChunkResult req (resolvedWorkerIdOf req assignments results)]
  (assignments2, results2, resolvedWorkerIdOf req assignments results)

/-- Request body of `POST /api/worker/record-progress` after the endpoint's
guard (`taskId`, numeric `chunkIndex`, finite `itemsProcessed`). -/
structure RecordProgressReq where
  taskId : String
  chunkIndex : Int
  workerId : Option String
  rangeStart : Option Int
  itemsProcessed : Int
  totalItems : Option Int
  bytesUsed : Option Int
  item : Option RawItem
  items : List RawItem
  batchOffset : Option Int
  batchSize : Option Int
  deriving Repr, DecidableEq

/-- First-match in-place mutation on the assignment list. -/
def updateFirstAssignment (tid : String) (ci : Int) (f : Assignment → Assignment) :
    List Assignment → List Assignment
  | [] => []
  | a :: rest =>
      if a.taskId = tid ∧ a.chunkIndex = some ci then f a :: rest
      else a :: updateFirstAssignment tid ci f rest

/-- Models the keyed upsert of one sanitised item: drop any stored item with
the same finite `localIndex`, then push. -/
def upsertOne (list : List ItemResult) (sanitized : ItemResult) : List ItemResult :=
  let filtered :=
    match sanitized.localIndex with
    | some li => list.filter (fun ex =>
        match ex.localIndex with
        | some l2 => decide (l2 ≠ li)
        | none => true)
    | none => list
  filtered ++ [sanitized]

/-- Models the `rawBatch.forEach` upsert loop of `record-progress`:
`idx`-dependent local/global fallbacks, sanitisation, keyed replacement. -/
def upsertLoop (rangeStart : Option Int) (processed : Int) (nbo : Option Int)
    (batchLen : Nat) : Nat → List RawItem → List ItemResult → List ItemResult
  | _, [], acc => acc
  | idx, raw :: rest, acc =>
      let fallbackLocal : Option Int :=
        match nbo with
        | some b => some (b + (idx : Int))
        | none => some (max 0 (processed - (batchLen : Int) + (idx : Int)))
      let fallbackGlobal : Option Int :=
        match rangeStart, fallbackLocal with
        | some rs, some fl => some (rs + fl)
        | _, _ => none
      match progressSanitizeItem raw fallbackLocal fallbackGlobal with
      | some sanitized => upsertLoop rangeStart processed nbo batchLen (idx + 1) rest (upsertOne acc sanitized)
      | none => upsertLoop rangeStart processed nbo batchLen (idx + 1) rest acc

/-- Fresh `status = processing` result row created by `record-progress` when
the bucket has none (note the code initialises `rangeEnd` to `rangeStart`). -/
def freshProgressResult (req : RecordProgressReq) (total : Option Int) (processed : Int) :
    ChunkResult :=
  { taskId := req.taskId, chunkIndex := req.chunkIndex, status := "processing",
    resultText := none, rangeStart := req.rangeStart, rangeEnd := req.rangeStart,
    itemsCount := total, bytesUsed := req.bytesUsed, output := none, error := none,
    itemResults := [], itemResultsTotal := 0, itemResultsTruncated := false,
    processedItems := some processed, payoutIssued := false, payoutAt := none,
    workerId := none }

/-- Models the common mutation block `record-progress` applies to the bucket's
result row (existing or freshly created). -/
def progressMutate (req : RecordProgressReq) (total : Option Int) (processed : Int)
    (nbo : Option Int) (entry : ChunkResult) : ChunkResult :=
  let rawBatch :=
    if req.items.length > 0 then req.items
    else match req.item with | some it => [it] | none => []
  let irs :=
    if rawBatch.length > 0 then
      let upserted := upsertLoop req.rangeStart processed nbo rawBatch.length 0 rawBatch entry.itemResults
      let sorted := sortByLocalIndex upserted
      if MAX_ITEM_RESULTS_STORED < sorted.length then
        sorted.drop (sorted.length - MAX_ITEM_RESULTS_STORED)
      else sorted
    else entry.itemResults
  let irt := if entry.itemResultsTotal < processed then processed else entry.itemResultsTotal
  { entry with
    status :=
      if entry.status ≠ "completed" ∧ entry.status ≠ "failed" then "processing"
      else entry.status
    rangeStart :=
      match req.rangeStart with
      | some r0 => some (match entry.rangeStart with | some old => min old r0 | none => r0)
      | none => entry.rangeStart
    rangeEnd :=
      match req.rangeStart with
      | some r0 =>
          match entry.rangeEnd with
          | some old => if old < r0 + processed then some (r0 + processed) else some old
          | none => some (r0 + processed)
      | none => entry.rangeEnd
    itemsCount :=
      match total with
      | some t => if (entry.itemsCount.getD 0) < t then some t else entry.itemsCount
      | none => entry.itemsCount
    processedItems :=
      if (entry.processedItems.getD 0) < processed then some processed
      else entry.processedItems
    bytesUsed := req.bytesUsed.or entry.bytesUsed
    itemResults := irs
    output :=
      match total with
      | some t => some ("Processing " ++ toString (min processed t) ++ " / " ++ toString t ++ " item(s)")
      | none => some ("Processing " ++ toString processed ++ " item(s)")
    itemResultsTotal := irt
    itemResultsTruncated := decide ((irs.length : Int) < irt) }

/-- Models the `record-progress` handler's state transformation (after body
validation): refresh the lease if one matches, then create-or-update the
bucket's `processing` result row.  `newExpiresAt` stands for
`Date.now() + BUCKET_TIMEOUT_MS`. -/
def progressTotal (req : RecordProgressReq) : Option Int :=
  req.totalItems.map (fun t => max 0 t)

def progressProcessed (req : RecordProgressReq) : Int :=
  match progressTotal req with
  | some t => min (max 0 req.itemsProcessed) t
  | none => max 0 req.itemsProcessed

def progressNbo (req : RecordProgressReq) : Option Int :=
  req.batchOffset.map (fun b => max 0 b)

def recordProgress (req : RecordProgressReq) (assignments : List Assignment)
    (results : List ChunkResult) (newExpiresAt : Int) :
    List Assignment × List ChunkResult :=
  let total := progressTotal req
  let processed := progressProcessed req
  let nbo := progressNbo req
  let nbs := req.batchSize.map (fun b => max 0 b)
  let assignments2 := updateFirstAssignment req.taskId req.chunkIndex (fun a =>
    { a with
      processedCount := some processed
      bytesUsed := req.bytesUsed.or a.bytesUsed
      progressRangeEnd :=
        match req.rangeStart with
        | some rs => some (rs + processed)
        | none => a.progressRangeEnd
      lastBatchOffset := nbo.or a.lastBatchOffset
      lastBatchSize := nbs.or a.lastBatchSize
      expiresAt := some newExpiresAt
      workerId := req.workerId.or a.workerId }) assignments
  let results2 :=
    match results.find? (fun r => decide (r.taskId = req.taskId ∧ r.chunkIndex = req.chunkIndex)) with
    | some _ => updateFirstResult req.taskId req.chunkIndex
        (progressMutate req total processed nbo) results
    | none => results ++ [progressMutate req total processed nbo (freshProgressResult req total processed)]
  (assignments2, results2)

theorem find?_updateFirstResult (tid : String) (ci : Int) (f : ChunkResult → ChunkResult)
    (hf : ∀ r, (f r).taskId = r.taskId ∧ (f r).chunkIndex = r.chunkIndex)
    (l : List ChunkResult) :
    (updateFirstResult tid ci f l).find?
        (fun r => decide (r.taskId = tid ∧ r.chunkIndex = ci)) =
      (l.find? (fun r => decide (r.taskId = tid ∧ r.chunkIndex = ci))).map f := by
  induction l with
  | nil => simp [updateFirstResult]
  | cons a rest ih =>
      unfold updateFirstResult
      by_cases hm : a.taskId = tid ∧ a.chunkIndex = ci
      · rw [if_pos hm]
        rw [List.find?_cons_of_pos _ (by simp [(hf a).1, (hf a).2, hm.1, hm.2]),
          List.find?_cons_of_pos _ (by simp [hm.1, hm.2])]
        simp
      · rw [if_neg hm]
        rw [List.find?_cons_of_neg _ (by simpa using hm),
          List.find?_cons_of_neg _ (by simpa using hm)]
        exact ih

/-- When the resolved items count is `none`, the sanitised item list is
empty. -/
theorem resolvedItemsCount_none_items (req : RecordChunkReq)
    (h : resolvedItemsCount req = none) :
    (sanitizeItemResults req.itemResults).items.length = 0 := by
  unfold resolvedItemsCount at h
  cases hic : req.itemsCount with
  | some c => rw [hic] at h; simp at h
  | none =>
      rw [hic] at h
      cases hrs : req.rangeStart with
      | some s =>
          cases hre : req.rangeEnd with
          | some e => rw [hrs, hre] at h; simp at h
          | none =>
              rw [hrs, hre] at h
              by_cases hz : (sanitizeItemResults req.itemResults).items.length ≠ 0
              · rw [if_pos hz] at h; simp at h
              · simpa using hz
      | none =>
          rw [hrs] at h
          by_cases hz : (sanitizeItemResults req.itemResults).items.length ≠ 0
          · cases hre : req.rangeEnd with
            | some e => rw [hre] at h; rw [if_pos hz] at h; simp at h
            | none => rw [hre] at h; rw [if_pos hz] at h; simp at h
          · simpa using hz

/-- C5 (amended): `record-chunk` overwrites the stored status with the
submitted status verbatim (it does not derive it from the item results); when
an items count can be resolved (request `itemsCount`, else
`rangeEnd - rangeStart`, else a nonzero sanitised item count) both
`itemsCount` and `processedItems` are set to it, and when none can be
resolved `processedItems` becomes 0 on an updated row and null on a fresh
one. -/
theorem recordChunk_overwrites_status_and_counts (req : RecordChunkReq)
    (assignments : List Assignment) (results : List ChunkResult) :
    ∃ target,
      (recordChunk req assignments results).2.1.find?
          (fun r => decide (r.taskId = req.taskId ∧ r.chunkIndex = req.chunkIndex)) = some target ∧
      target.status = req.status ∧
      (∀ c, resolvedItemsCount req = some c →
        target.itemsCount = some c ∧ target.processedItems = some c) ∧
      (resolvedItemsCount req = none →
        target.processedItems = none ∨ target.processedItems = some 0) := by
  unfold recordChunk
  cases hex : existingResult req results with
  | some ex =>
      have hfind : (dedupResults req results).find?
          (fun r => decide (r.taskId = req.taskId ∧ r.chunkIndex = req.chunkIndex)) = some ex := hex
      simp only [hex]
      refine ⟨applyTerminalUpdate req (resolvedWorkerIdOf req assignments results) ex,
        ?_, rfl, ?_, ?_⟩
      · rw [find?_updateFirstResult req.taskId req.chunkIndex
          (applyTerminalUpdate req (resolvedWorkerIdOf req assignments results))
          (fun r => ⟨rfl, rfl⟩) (dedupResults req results)]
        rw [hfind]
        rfl
      · intro c hc
        constructor
        · show (resolvedItemsCount req).or ex.itemsCount = some c
          rw [hc]
          rfl
        · show (match resolvedItemsCount req with
            | some c2 => some c2
            | none => some (((sanitizeItemResults req.itemResults).items.length : Int))) = some c
          rw [hc]
      · intro hc
        right
        show (match resolvedItemsCount req with
          | some c2 => some c2
          | none => some (((sanitizeItemResults req.itemResults).items.length : Int))) = some 0
        rw [hc]
        simp [resolvedItemsCount_none_items req hc]
  | none =>
      have hfind : (dedupResults req results).find?
          (fun r => decide (r.taskId = req.taskId ∧ r.chunkIndex = req.chunkIndex)) = none := hex
      simp only [hex]
      refine ⟨newChunkResult req (resolvedWorkerIdOf req assignments results), ?_, rfl, ?_, ?_⟩
      · rw [List.find?_append, hfind]
        rw [List.find?_cons_of_pos _ (by simp [newChunkResult])]
        rfl
      · intro c hc
        constructor
        · show resolvedItemsCount req = some c
          exact hc
        · show resolvedItemsCount req = some c
          exact hc
      · intro hc
        left
        show resolvedItemsCount req = none
        exact hc

/-- Concrete terminal request: bucket 0 of task `t1` completed over `[0, 3)`
with three items. -/
def termReq : RecordChunkReq :=
  { taskId := "t1", chunkIndex := 0, status := "completed", resultText := some "ok",
    rangeStart := some 0, rangeEnd := some 3, itemsCount := some 3, bytesUsed := none,
    output := none, error := none, itemResults := [], workerId := some "w1" }

/-- Witness for C5: recording `termReq` on an empty store yields a row with
the submitted status and `itemsCount = processedItems = 3`. -/
theorem recordChunk_overwrites_status_and_counts_witness :
    ∃ target,
      (recordChunk termReq [] []).2.1.find?
          (fun r => decide (r.taskId = termReq.taskId ∧ r.chunkIndex = termReq.chunkIndex)) =
        some target ∧
      target.status = "completed" ∧ target.itemsCount = some 3 ∧
      target.processedItems = some 3 := by
  obtain ⟨target, hfind, hstatus, himp, hnone⟩ :=
    recordChunk_overwrites_status_and_counts termReq [] []
  obtain ⟨hic, hpi⟩ := himp 3 rfl
  exact ⟨target, hfind, hstatus, hic, hpi⟩

/-- Spec-side terminal status derivation, following the claim's words:
`failed` if any submitted item failed, else `completed` if any completed,
else `skipped`. -/
def claimDerivedStatus (items : List RawItem) : String :=
  if items.any (fun i => decide (claimItemStatus i.status = "failed")) then "failed"
  else if items.any (fun i => decide (claimItemStatus i.status = "completed")) then "completed"
  else "skipped"

/-- Concrete terminal request that submits status `completed` while its only
item result failed. -/
def mismatchReq : RecordChunkReq :=
  { taskId := "t1", chunkIndex := 0, status := "completed", resultText := some "x",
    rangeStart := some 0, rangeEnd := some 1, itemsCount := some 1, bytesUsed := none,
    output := none, error := none, itemResults := [rawFailed], workerId := some "w1" }

/-- Counterexample to C5 as stated: `record-chunk` stores the submitted
status verbatim; a bucket posted as `completed` whose lone item failed is
stored as `completed`, not as the item-derived `failed`. -/
theorem recordChunk_status_not_derived_cex :
    ((recordChunk mismatchReq [] []).2.1.find?
        (fun r => decide (r.taskId = "t1" ∧ r.chunkIndex = 0))).map ChunkResult.status =
      some "completed" ∧
    claimDerivedStatus [rawFailed] = "failed" ∧
    ("completed" : String) ≠ "failed" := by
  refine ⟨by decide, by decide, by decide⟩

theorem progressMutate_processedItems_mono (req : RecordProgressReq) (total : Option Int)
    (processed : Int) (nbo : Option Int) (entry : ChunkResult) :
    entry.processedItems.getD 0 ≤
      (progressMutate req total processed nbo entry).processedItems.getD 0 := by
  show entry.processedItems.getD 0 ≤
    (if (entry.processedItems.getD 0) < processed then some processed
     else entry.processedItems).getD 0
  by_cases h : entry.processedItems.getD 0 < processed
  · rw [if_pos h]
    simpa using le_of_lt h
  · rw [if_neg h]

/-- C6 (amended): across `record-progress` calls the stored `processedItems`
of a bucket result never decreases (`processedItems ← max(previous, batch)`);
the terminal `record-chunk` however overwrites it with the resolved items
count, which can be smaller than previously streamed progress. -/
theorem recordProgress_processedItems_monotone (req : RecordProgressReq)
    (assignments : List Assignment) (results : List ChunkResult) (newExpiresAt : Int)
    (old : ChunkResult)
    (hfind : results.find?
        (fun r => decide (r.taskId = req.taskId ∧ r.chunkIndex = req.chunkIndex)) = some old) :
    ∃ target,
      (recordProgress req assignments results newExpiresAt).2.find?
          (fun r => decide (r.taskId = req.taskId ∧ r.chunkIndex = req.chunkIndex)) = some target ∧
      old.processedItems.getD 0 ≤ target.processedItems.getD 0 := by
  unfold recordProgress
  simp only [hfind]
  refine ⟨progressMutate req (progressTotal req) (progressProcessed req) (progressNbo req) old,
    ?_, progressMutate_processedItems_mono req _ _ _ old⟩
  rw [find?_updateFirstResult req.taskId req.chunkIndex
    (progressMutate req (progressTotal req) (progressProcessed req) (progressNbo req))
    (fun r => ⟨rfl, rfl⟩) results]
  rw [hfind]
  rfl

/-- Concrete result row holding streamed progress of 2 items. -/
def partialResult : ChunkResult :=
  { taskId := "t1", chunkIndex := 0, status := "processing", resultText := none,
    rangeStart := some 0, rangeEnd := some 2, itemsCount := some 10, bytesUsed := none,
    output := none, error := none, itemResults := [], itemResultsTotal := 2,
    itemResultsTruncated := false, processedItems := some 2, payoutIssued := false,
    payoutAt := none, workerId := some "w1" }

/-- Concrete progress batch reporting 5 processed items for the bucket of
`partialResult`. -/
def progReq : RecordProgressReq :=
  { taskId := "t1", chunkIndex := 0, workerId := some "w1", rangeStart := some 0,
    itemsProcessed := 5, totalItems := some 10, bytesUsed := none, item := none,
    items := [], batchOffset := none, batchSize := none }

/-- Witness for C6: the progress batch raises `processedItems` from 2 to a
value at least 2. -/
theorem recordProgress_processedItems_monotone_witness :
    ∃ target,
      (recordProgress progReq [] [partialResult] 0).2.find?
          (fun r => decide (r.taskId = progReq.taskId ∧ r.chunkIndex = progReq.chunkIndex)) =
        some target ∧
      partialResult.processedItems.getD 0 ≤ target.processedItems.getD 0 :=
  recordProgress_processedItems_monotone progReq [] [partialResult] 0 partialResult (by decide)

/-- Concrete terminal request whose resolved items count (3) is below the
already streamed progress (5). -/
def shrinkReq : RecordChunkReq :=
  { taskId := "t1", chunkIndex := 0, status := "completed", resultText := some "x",
    rangeStart := some 0, rangeEnd := some 3, itemsCount := some 3, bytesUsed := none,
    output := none, error := none, itemResults := [], workerId := some "w1" }

/-- Counterexample to C6 as stated: after a progress batch stores
`processedItems = 5`, the terminal `record-chunk` with `itemsCount = 3`
overwrites it with 3 — the sequence progress-then-terminal is not
monotone. -/
theorem processedItems_terminal_regression_cex :
    (((recordProgress progReq [] [] 0).2.find?
        (fun r => decide (r.taskId = "t1" ∧ r.chunkIndex = 0))).map
      ChunkResult.processedItems) = some (some 5) ∧
    (((recordChunk shrinkReq [] (recordProgress progReq [] [] 0).2).2.1.find?
        (fun r => decide (r.taskId = "t1" ∧ r.chunkIndex = 0))).map
      ChunkResult.processedItems) = some (some 3) ∧
    ¬((5 : Int) ≤ 3) := by
  refine ⟨by decide, by decide, by decide⟩

/-- Terminal statuses of the `next-chunk` scan
(`new Set(["completed", "failed", "skipped"])`). -/
def isTerminalStatus (s : String) : Bool :=
  s = "completed" || s = "failed" || s = "skipped"

/-- Models the related-result check of the `next-chunk` scan: the first
result with the lease's task id and bucket index, tested for a terminal
status. -/
def hasTerminalResult (results : List ChunkResult) (tid : String) (a : Assignment) : Bool :=
  match results.find? (fun r => decide (r.taskId = tid ∧ a.chunkIndex = some r.chunkIndex)) with
  | some r => isTerminalStatus r.status
  | none => false

/-- Models `entry.assignedAt ? Date.parse(entry.assignedAt) : 0` (timestamps
are held as epoch milliseconds). -/
def jsTime (t : Option Int) : Int := t.getD 0

/-- Models the backward `for` loop of `next-chunk` over the assignment
collection (the input list is fed in reversed, so the head here is the entry
the JS loop visits first): leases of other tasks or workers are kept
untouched, leases whose bucket already has a terminal result are spliced out,
and among the remaining leases of the pair the candidate with the strictly
smallest `assignedAt` wins. -/
def resumeScanGo (tid wid : String) (results : List ChunkResult) :
    List Assignment → Option Assignment → List Assignment × Option Assignment
  | [], cand => ([], cand)
  | a :: rest, cand =>
      if a.taskId ≠ tid then
        let p := resumeScanGo tid wid results rest cand
        (a :: p.1, p.2)
      else if a.workerId ≠ some wid then
        let p := resumeScanGo tid wid results rest cand
        (a :: p.1, p.2)
      else if hasTerminalResult results tid a then
        resumeScanGo tid wid results rest cand
      else
        match cand with
        | none =>
            let p := resumeScanGo tid wid results rest (some a)
            (a :: p.1, p.2)
        | some ex =>
            if jsTime a.assignedAt < jsTime ex.assignedAt then
              let p := resumeScanGo tid wid results rest (some a)
              (a :: p.1, p.2)
            else
              let p := resumeScanGo tid wid results rest (some ex)
              (a :: p.1, p.2)

/-- Models the resume scan of `next-chunk` (lines iterating
`assignmentsCollection` from the last index to the first): returns the
surviving assignment collection in original order and the selected resumable
lease, if any. -/
def resumeScan (tid wid : String) (results : List ChunkResult)
    (assignments : List Assignment) : List Assignment × Option Assignment :=
  let p := resumeScanGo tid wid results assignments.reverse none
  (p.1.reverse, p.2)

/-- An active lease of the `(taskId, workerId)` pair: owned by the pair and
its bucket has no terminal result. -/
def resumableLease (results : List ChunkResult) (tid wid : String) (a : Assignment) : Prop :=
  a.taskId = tid ∧ a.workerId = some wid ∧ hasTerminalResult results tid a = false

/-- Resume branch of the `next-chunk` response. -/
structure ResumeResponse where
  chunkIndex : Int
  rangeStart : Int
  rangeEnd : Int
  resume : Bool
  deriving Repr, DecidableEq

/-- Models the resume response of `next-chunk`: the lease's normalised range
clamped to the data length (with the one-item fallback when it collapses),
`resume: true`, and the lease's bucket index. -/
def resumeResponse (a : Assignment) (dataLen : Int) : ResumeResponse :=
  let rr := assignmentRange a
  let resumeStart :=
    match rr with
    | some (s, _) => s
    | none => (a.rangeStart.or a.chunkIndex).getD 0
  let resumeEnd :=
    match rr with
    | some (_, e) => e
    | none => a.rangeEnd.getD resumeStart
  let safeStart := max 0 (min resumeStart dataLen)
  let safeEnd0 := max safeStart (min resumeEnd dataLen)
  let safeEnd :=
    if safeEnd0 ≤ safeStart then
      min dataLen (safeStart + (match a.itemsCount with | some c => max 1 c | none => 1))
    else safeEnd0
  { chunkIndex := a.chunkIndex.getD safeStart, rangeStart := safeStart,
    rangeEnd := safeEnd, resume := true }

/-- Concrete lease of `(t1, w1)` assigned at time 100 over `[0, 2)`. -/
def leaseOld : Assignment :=
  { taskId := "t1", chunkIndex := some 0, workerId := some "w1",
    assignedAt := some 100, expiresAt := some 999999,
    rangeStart := some 0, rangeEnd := some 2, itemsCount := some 2,
    processedCount := some 0, progressRangeEnd := some 0, bytesUsed := some 10,
    lastBatchOffset := some 0, lastBatchSize := some 0 }

/-- Concrete younger lease of the same pair, assigned at time 200 over
`[2, 4)`. -/
def leaseNew : Assignment :=
  { taskId := "t1", chunkIndex := some 1, workerId := some "w1",
    assignedAt := some 200, expiresAt := some 999999,
    rangeStart := some 2, rangeEnd := some 4, itemsCount := some 2,
    processedCount := some 0, progressRangeEnd := some 2, bytesUsed := some 10,
    lastBatchOffset := some 0, lastBatchSize := some 0 }

/-- Counterexample to C4 as stated: with two active leases for the same
`(taskId, workerId)` pair the scan selects the oldest but keeps both in the
assignment collection — the other lease is not discarded. -/
theorem resume_scan_keeps_duplicates_cex :
    resumeScan "t1" "w1" [] [leaseOld, leaseNew] = ([leaseOld, leaseNew], some leaseOld) ∧
    (resumeScan "t1" "w1" [] [leaseOld, leaseNew]).1.length = 2 ∧
    leaseNew ≠ leaseOld := by
  refine ⟨by decide, by decide, by decide⟩

theorem resumeScanGo_list (tid wid : String) (results : List ChunkResult) :
    ∀ (l : List Assignment) (cand : Option Assignment),
      (resumeScanGo tid wid results l cand).1 = l.filter (fun a =>
        !(decide (a.taskId = tid) && decide (a.workerId = some wid) &&
          hasTerminalResult results tid a)) := by
  intro l
  induction l with
  | nil => intro cand; rfl
  | cons a rest ih =>
      intro cand
      unfold resumeScanGo
      by_cases h1 : a.taskId ≠ tid
      · rw [if_pos h1]
        simp only [List.filter_cons]
        have : (!(decide (a.taskId = tid) && decide (a.workerId = some wid) &&
            hasTerminalResult results tid a)) = true := by
          simp [h1]
        rw [this, ih cand]
        simp
      · rw [if_neg h1]
        by_cases h2 : a.workerId ≠ some wid
        · rw [if_pos h2]
          simp only [List.filter_cons]
          have : (!(decide (a.taskId = tid) && decide (a.workerId = some wid) &&
              hasTerminalResult results tid a)) = true := by
            simp [h2]
          rw [this, ih cand]
          simp
        · rw [if_neg h2]
          push_neg at h1 h2
          by_cases h3 : hasTerminalResult results tid a
          · rw [if_pos h3]
            simp only [List.filter_cons]
            have : (!(decide (a.taskId = tid) && decide (a.workerId = some wid) &&
                hasTerminalResult results tid a)) = false := by
              simp [h1, h2, h3]
            rw [this, ih cand]
            simp
          · rw [if_neg h3]
            have hkeep : (!(decide (a.taskId = tid) && decide (a.workerId = some wid) &&
                hasTerminalResult results tid a)) = true := by
              simp [h1, h2]
              exact Bool.not_eq_true _ ▸ (by simpa using h3)
            cases cand with
            | none =>
                dsimp only
                simp only [List.filter_cons]
                rw [hkeep, ih (some a)]
                simp
            | some ex =>
                dsimp only
                by_cases hlt : jsTime a.assignedAt < jsTime ex.assignedAt
                · rw [if_pos hlt]
                  simp only [List.filter_cons]
                  rw [hkeep, ih (some a)]
                  simp
                · rw [if_neg hlt]
                  simp only [List.filter_cons]
                  rw [hkeep, ih (some ex)]
                  simp

theorem resumeScanGo_cand_spec (tid wid : String) (results : List ChunkResult) :
    ∀ (l : List Assignment) (cand : Option Assignment),
      (∀ x, (resumeScanGo tid wid results l cand).2 = some x →
        (cand = some x ∨ (x ∈ l ∧ resumableLease results tid wid x)) ∧
        (∀ y, cand = some y → jsTime x.assignedAt ≤ jsTime y.assignedAt) ∧
        (∀ b ∈ l, resumableLease results tid wid b →
          jsTime x.assignedAt ≤ jsTime b.assignedAt)) ∧
      ((resumeScanGo tid wid results l cand).2 = none →
        cand = none ∧ ∀ b ∈ l, ¬ resumableLease results tid wid b) := by
  intro l
  induction l with
  | nil =>
      intro cand
      constructor
      · intro x hx
        replace hx : cand = some x := hx
        refine ⟨Or.inl hx, ?_, ?_⟩
        · intro y hy
          rw [hx] at hy
          injection hy with h
          rw [h]
        · intro b hb
          exact absurd hb (List.not_mem_nil b)
      · intro hx
        replace hx : cand = none := hx
        exact ⟨hx, fun b hb => absurd hb (List.not_mem_nil b)⟩
  | cons a rest ih =>
      intro cand
      unfold resumeScanGo
      by_cases h1 : a.taskId ≠ tid
      · rw [if_pos h1]
        have hnl : ¬ resumableLease results tid wid a := fun hc => h1 hc.1
        constructor
        · intro x hx
          obtain ⟨hA, hB, hC⟩ := (ih cand).1 x hx
          refine ⟨?_, hB, ?_⟩
          · rcases hA with h | ⟨hm, hl⟩
            · exact Or.inl h
            · exact Or.inr ⟨List.mem_cons_of_mem a hm, hl⟩
          · intro b hb hlb
            rcases List.mem_cons.mp hb with rfl | hb2
            · exact absurd hlb hnl
            · exact hC b hb2 hlb
        · intro hx
          obtain ⟨hno, hall⟩ := (ih cand).2 hx
          refine ⟨hno, ?_⟩
          intro b hb
          rcases List.mem_cons.mp hb with rfl | hb2
          · exact hnl
          · exact hall b hb2
      · rw [if_neg h1]
        by_cases h2 : a.workerId ≠ some wid
        · rw [if_pos h2]
          have hnl : ¬ resumableLease results tid wid a := fun hc => h2 hc.2.1
          constructor
          · intro x hx
            obtain ⟨hA, hB, hC⟩ := (ih cand).1 x hx
            refine ⟨?_, hB, ?_⟩
            · rcases hA with h | ⟨hm, hl⟩
              · exact Or.inl h
              · exact Or.inr ⟨List.mem_cons_of_mem a hm, hl⟩
            · intro b hb hlb
              rcases List.mem_cons.mp hb with rfl | hb2
              · exact absurd hlb hnl
              · exact hC b hb2 hlb
          · intro hx
            obtain ⟨hno, hall⟩ := (ih cand).2 hx
            refine ⟨hno, ?_⟩
            intro b hb
            rcases List.mem_cons.mp hb with rfl | hb2
            · exact hnl
            · exact hall b hb2
        · rw [if_neg h2]
          push_neg at h1 h2
          by_cases h3 : hasTerminalResult results tid a
          · rw [if_pos h3]
            have hnl : ¬ resumableLease results tid wid a := by
              intro hc
              rw [hc.2.2] at h3
              exact Bool.false_ne_true h3
            constructor
            · intro x hx
              obtain ⟨hA, hB, hC⟩ := (ih cand).1 x hx
              refine ⟨?_, hB, ?_⟩
              · rcases hA with h | ⟨hm, hl⟩
                · exact Or.inl h
                · exact Or.inr ⟨List.mem_cons_of_mem a hm, hl⟩
              · intro b hb hlb
                rcases List.mem_cons.mp hb with rfl | hb2
                · exact absurd hlb hnl
                · exact hC b hb2 hlb
            · intro hx
              obtain ⟨hno, hall⟩ := (ih cand).2 hx
              refine ⟨hno, ?_⟩
              intro b hb
              rcases List.mem_cons.mp hb with rfl | hb2
              · exact hnl
              · exact hall b hb2
          · rw [if_neg h3]
            have hla : resumableLease results tid wid a :=
              ⟨h1, h2, Bool.not_eq_true _ ▸ (by simpa using h3)⟩
            cases cand with
            | none =>
                dsimp only
                constructor
                · intro x hx
                  obtain ⟨hA, hB, hC⟩ := (ih (some a)).1 x hx
                  refine ⟨?_, ?_, ?_⟩
                  · rcases hA with h | ⟨hm, hl⟩
                    · injection h with h
                      rw [← h]
                      exact Or.inr ⟨List.mem_cons_self a rest, hla⟩
                    · exact Or.inr ⟨List.mem_cons_of_mem a hm, hl⟩
                  · intro y hy
                    exact absurd hy (by simp)
                  · intro b hb hlb
                    rcases List.mem_cons.mp hb with rfl | hb2
                    · exact hB b rfl
                    · exact hC b hb2 hlb
                · intro hx
                  obtain ⟨hno, _⟩ := (ih (some a)).2 hx
                  exact absurd hno (by simp)
            | some ex =>
                dsimp only
                by_cases hlt : jsTime a.assignedAt < jsTime ex.assignedAt
                · rw [if_pos hlt]
                  constructor
                  · intro x hx
                    obtain ⟨hA, hB, hC⟩ := (ih (some a)).1 x hx
                    have hxa : jsTime x.assignedAt ≤ jsTime a.assignedAt := hB a rfl
                    refine ⟨?_, ?_, ?_⟩
                    · rcases hA with h | ⟨hm, hl⟩
                      · injection h with h
                        rw [← h]
                        exact Or.inr ⟨List.mem_cons_self a rest, hla⟩
                      · exact Or.inr ⟨List.mem_cons_of_mem a hm, hl⟩
                    · intro y hy
                      injection hy with hy
                      rw [← hy]
                      exact le_trans hxa (le_of_lt hlt)
                    · intro b hb hlb
                      rcases List.mem_cons.mp hb with rfl | hb2
                      · exact hxa
                      · exact hC b hb2 hlb
                  · intro hx
                    obtain ⟨hno, _⟩ := (ih (some a)).2 hx
                    exact absurd hno (by simp)
                · rw [if_neg hlt]
                  push_neg at hlt
                  constructor
                  · intro x hx
                    obtain ⟨hA, hB, hC⟩ := (ih (some ex)).1 x hx
                    have hxe : jsTime x.assignedAt ≤ jsTime ex.assignedAt := hB ex rfl
                    refine ⟨?_, ?_, ?_⟩
                    · rcases hA with h | ⟨hm, hl⟩
                      · exact Or.inl h
                      · exact Or.inr ⟨List.mem_cons_of_mem a hm, hl⟩
                    · intro y hy
                      injection hy with hy
                      rw [← hy]
                      exact hxe
                    · intro b hb hlb
                      rcases List.mem_cons.mp hb with rfl | hb2
                      · exact le_trans hxe hlt
                      · exact hC b hb2 hlb
                  · intro hx
                    obtain ⟨hno, _⟩ := (ih (some ex)).2 hx
                    exact absurd hno (by simp)

theorem resumeResponse_wellformed (a : Assignment) (dataLen ci s e : Int)
    (hci : a.chunkIndex = some ci) (hs : a.rangeStart = some s) (he : a.rangeEnd = some e)
    (hlt : s < e) (h0 : 0 ≤ s) (hle : e ≤ dataLen) :
    resumeResponse a dataLen =
      { chunkIndex := ci, rangeStart := s, rangeEnd := e, resume := true } := by
  have hrr : assignmentRange a = some (s, e) := by
    unfold assignmentRange normalizeRange
    rw [hs, he]
    dsimp only
    rw [if_pos hlt]
  unfold resumeResponse
  rw [hrr, hci]
  dsimp only
  have h1 : max 0 (min s dataLen) = s := by omega
  rw [h1]
  have h2 : max s (min e dataLen) = e := by omega
  rw [h2]
  rw [if_neg (by omega)]
  rfl

/-- C4 (amended): the `next-chunk` resume scan removes exactly those leases
of the pair whose bucket already has a terminal result — other active leases
of the pair are retained, not discarded; the selected lease is an active
lease of the pair that is oldest by `assignedAt` among all of them (and one
is selected whenever one exists), and for a well-formed selected lease the
endpoint answers with its original bucket index and range and
`resume = true`. -/
theorem next_chunk_resume_spec (tid wid : String) (results : List ChunkResult)
    (assignments : List Assignment) (dataLen : Int) :
    (resumeScan tid wid results assignments).1 =
      assignments.filter (fun a =>
        !(decide (a.taskId = tid) && decide (a.workerId = some wid) &&
          hasTerminalResult results tid a)) ∧
    (∀ x, (resumeScan tid wid results assignments).2 = some x →
      x ∈ assignments ∧ resumableLease results tid wid x ∧
      (∀ b ∈ assignments, resumableLease results tid wid b →
        jsTime x.assignedAt ≤ jsTime b.assignedAt) ∧
      (∀ ci s e, x.chunkIndex = some ci → x.rangeStart = some s → x.rangeEnd = some e →
        s < e → 0 ≤ s → e ≤ dataLen →
        resumeResponse x dataLen =
          { chunkIndex := ci, rangeStart := s, rangeEnd := e, resume := true })) ∧
    ((resumeScan tid wid results assignments).2 = none →
      ∀ b ∈ assignments, ¬ resumableLease results tid wid b) := by
  refine ⟨?_, ?_, ?_⟩
  · show ((resumeScanGo tid wid results assignments.reverse none).1).reverse = _
    rw [resumeScanGo_list tid wid results assignments.reverse none]
    rw [List.filter_reverse, List.reverse_reverse]
  · intro x hx
    replace hx : (resumeScanGo tid wid results assignments.reverse none).2 = some x := hx
    obtain ⟨hA, _, hC⟩ := (resumeScanGo_cand_spec tid wid results assignments.reverse none).1 x hx
    rcases hA with h | ⟨hm, hl⟩
    · exact absurd h (by simp)
    · refine ⟨List.mem_reverse.mp hm, hl, ?_, ?_⟩
      · intro b hb hlb
        exact hC b (List.mem_reverse.mpr hb) hlb
      · intro ci s e hci hs he hlt h0 hle
        exact resumeResponse_wellformed x dataLen ci s e hci hs he hlt h0 hle
  · intro hx
    replace hx : (resumeScanGo tid wid results assignments.reverse none).2 = none := hx
    obtain ⟨_, hall⟩ := (resumeScanGo_cand_spec tid wid results assignments.reverse none).2 hx
    intro b hb
    exact hall b (List.mem_reverse.mpr hb)

/-- Witness for C4 at a single concrete active lease: it is selected, it is
minimal, and the response carries its original bucket index 0, range
`[0, 2)` and `resume = true` for a 10-item data file. -/
theorem next_chunk_resume_spec_witness :
    (resumeScan "t1" "w1" [] [leaseOld]).1 =
      [leaseOld].filter (fun a =>
        !(decide (a.taskId = "t1") && decide (a.workerId = some "w1") &&
          hasTerminalResult [] "t1" a)) ∧
    leaseOld ∈ [leaseOld] ∧ resumableLease [] "t1" "w1" leaseOld ∧
    resumeResponse leaseOld 10 =
      { chunkIndex := 0, rangeStart := 0, rangeEnd := 2, resume := true } := by
  have h := next_chunk_resume_spec "t1" "w1" [] [leaseOld] 10
  have hsome : (resumeScan "t1" "w1" [] [leaseOld]).2 = some leaseOld := by decide
  obtain ⟨hmem, hlease, _, hresp⟩ := h.2.1 leaseOld hsome
  exact ⟨h.1, hmem, hlease,
    hresp 0 0 2 rfl rfl rfl (by decide) (by decide) (by decide)⟩

end DTR
